import Mathlib

/-!
SUMP protocol engine of the ESP32 logic analyzer

A shallow embedding of `logic_analyzer_sump.c`
(`components/logic_analyzer/logic_analyzer_sump`): the sample-stream encoder
`sump_la_cb`, the capture orchestrator `sump_capture_and_send_samples` and the
command dispatcher `sump_cmd_parser`, followed by theorems about them.

Conventions of the embedding

* a C `int` is an `Int`; where the source computes in 32 bits the result goes
  through `int32` (two's-complement wrap);
* a byte (`uint8_t`) and a `uint32_t` are `Nat`s; casts to them are `% 256`
  and `% 2 ^ 32`;
* memory is a function from the byte offset relative to the callback's `buf`
  pointer to the byte stored there, and every write call of the encoder
  records the index it read, so that a read outside the delivered buffer is
  visible (its index is outside the buffer). Such a read is undefined in C:
  `sump_la_cb_on_buffer` gives what the callback does on a buffer of a given
  size, the write calls up to the first read outside it;
* the transport is a pair of byte lists: `rx`, the bytes the host will send,
  and `tx`, the bytes written so far.
-/

namespace Sump

/-! ## Machine integers -/

/-- Two's-complement wrap of an integer to a C `int` (32 bits). -/
def int32 (x : Int) : Int := (x + 2 ^ 31) % 2 ^ 32 - 2 ^ 31

/-- Cast to `uint32_t`. -/
def uint32 (x : Int) : Nat := (x % 2 ^ 32).toNat

/-- Cast to `uint8_t`. -/
def uint8 (x : Nat) : Nat := x % 256

/-! ## Sample stream encoder (`sump_la_cb`) -/

/-- Memory seen through the callback's `buf` pointer: the byte at each byte
offset from `buf`. Offsets below zero or past the delivered buffer stand for
whatever surrounds the buffer; the C program may not read there, and a
statement about what the callback sends holds for the program only where the
indices read (field `src` of `Wr`) are inside the buffer. -/
abbrev Mem := Int → Nat

/-- Memory that holds `bytes` from offset 0 on and `junk` everywhere else. -/
def bufMem (bytes : List Nat) (junk : Nat) : Mem :=
  fun a => if 0 ≤ a then bytes.getD a.toNat junk else junk

/-- One write call made by the encoder (`sump_write_data` or `sump_writeByte`):
`src` is the index of the element read through `bufff` (in units of the
pointer's element type, relative to `buf`), or `none` when the bytes come from
`zero_sample`; `bytes` are the bytes handed to the transport. -/
structure Wr where
  src : Option Int
  bytes : List Nat
  deriving DecidableEq

/-- The first `len` bytes of `int zero_sample = 0`. -/
def zero_sample (len : Nat) : Wr := ⟨none, List.replicate len 0⟩

/-- The bytes put on the wire by a sequence of write calls. -/
def wire (ws : List Wr) : List Nat := ws.flatMap Wr.bytes

/-- The element indices read through `bufff` by a sequence of write calls. -/
def reads (ws : List Wr) : List Int := ws.filterMap Wr.src

/-- The loop of the 8-channel branch. The first argument counts the iterations
that remain (`readCount - i`), `i` is the loop counter and `bufff` the index
the pointer stands at. -/
def la_loop8 (mem : Mem) (diff : Int) : Nat → Nat → Int → List Wr
  | 0, _, _ => []
  | n + 1, i, bufff =>
    if (i : Int) < diff then
      zero_sample 1 :: la_loop8 mem diff n (i + 1) bufff
    else
      ⟨some bufff, [mem bufff]⟩ :: la_loop8 mem diff n (i + 1) (bufff - 1)

/-- The loop of the 16-channel branch; `bufff` indexes 16-bit elements, the
element `k` being the bytes at offsets `2 * k` and `2 * k + 1`. -/
def la_loop16 (mem : Mem) (diff : Int) : Nat → Nat → Int → List Wr
  | 0, _, _ => []
  | n + 1, i, bufff =>
    if (i : Int) < diff then
      zero_sample 2 :: la_loop16 mem diff n (i + 1) bufff
    else
      ⟨some bufff, [mem (2 * bufff), mem (2 * bufff + 1)]⟩
        :: la_loop16 mem diff n (i + 1) (bufff - 1)

/-- The loop of the 4-channel branch: an even `i` sends the high nibble of the
byte under the pointer, an odd `i` sends its low nibble and steps the pointer
back. -/
def la_loop4 (mem : Mem) (diff : Int) : Nat → Nat → Int → List Wr
  | 0, _, _ => []
  | n + 1, i, bufff =>
    if (i : Int) < diff then
      zero_sample 1 :: la_loop4 mem diff n (i + 1) bufff
    else if i &&& 1 ≠ 0 then
      ⟨some bufff, [uint8 (mem bufff &&& 0xf)]⟩ :: la_loop4 mem diff n (i + 1) (bufff - 1)
    else
      ⟨some bufff, [uint8 ((mem bufff >>> 4) &&& 0xf)]⟩ :: la_loop4 mem diff n (i + 1) bufff

/-- The completion callback `sump_la_cb (buf, cnt, clk, channels)`, reading the
global `readCount`; `buf = none` is the null pointer. The result is the
sequence of write calls the code makes on the transport, each with the index it
reads; neither the loop counter nor the pointer depends on the bytes read. -/
def sump_la_cb (readCount : Int) (buf : Option Mem) (cnt : Int) (channels : Int) : List Wr :=
  match buf with
  | none => []
  | some mem =>
    let diff := int32 (readCount - cnt)
    if channels = 8 then
      la_loop8 mem diff readCount.toNat 0 (readCount - 1 - diff)
    else if channels = 16 then
      la_loop16 mem diff readCount.toNat 0 (readCount - 1 - diff)
    else
      la_loop4 mem diff readCount.toNat 0 (Int.tdiv readCount 2 - 1 - diff)

/-- Whether a write call reads inside a buffer of `len` elements; a call that
sends the zero sample reads nothing from the buffer. -/
def Wr.in_buffer (len : Nat) (w : Wr) : Bool :=
  match w.src with
  | none => true
  | some k => decide (0 ≤ k ∧ k < (len : Int))

/-- What the callback does on a delivered buffer: `written` are the write calls
made before the first read outside the buffer, and `fault` tells whether there
is such a read, at which the behaviour of the C program is undefined (on
guarded memory it stops there). -/
structure Outcome where
  written : List Wr
  fault : Bool
  deriving DecidableEq

/-- The callback on a delivered buffer given by its bytes (`none` is the null
pointer): the buffer holds `bytes.length` elements for the widths 4 and 8 and
`bytes.length / 2` elements of two bytes for width 16. The write calls are those
of `sump_la_cb`, cut before the first one that reads outside the buffer. -/
def sump_la_cb_on_buffer (readCount : Int) (buf : Option (List Nat)) (cnt : Int)
    (channels : Int) : Outcome :=
  match buf with
  | none => ⟨[], false⟩
  | some bytes =>
    let len := if channels = 16 then bytes.length / 2 else bytes.length
    let ws := sump_la_cb readCount (some (bufMem bytes 0)) cnt channels
    ⟨ws.takeWhile (Wr.in_buffer len), !(ws.all (Wr.in_buffer len))⟩

/-- The write call the 4-channel branch makes at loop counter `t` with the
pointer at index `q`. -/
def nibble_write (mem : Mem) (t : Nat) (q : Int) : Wr :=
  if t % 2 = 1 then ⟨some q, [uint8 (mem q &&& 0xf)]⟩
  else ⟨some q, [uint8 ((mem q >>> 4) &&& 0xf)]⟩

/-- The logical 4-bit sample number `t` of a nibble-packed buffer in the spec's
reading, in which the high nibble of a byte is the earlier sample of its pair:
sample `2 * k` is the high nibble and sample `2 * k + 1` the low nibble of
byte `k`. -/
def logical_sample (mem : Mem) (t : Int) : Nat :=
  if t % 2 = 0 then (mem (t / 2) >>> 4) &&& 0xF else mem (t / 2) &&& 0xF

/-! ## Session state -/

/-- The interrupt types of the ESP-IDF GPIO driver (`driver/gpio.h`), of which
the engine's trigger edge is one. -/
inductive gpio_int_type_t where
  | GPIO_INTR_DISABLE
  | GPIO_INTR_POSEDGE
  | GPIO_INTR_NEGEDGE
  | GPIO_INTR_ANYEDGE
  | GPIO_INTR_LOW_LEVEL
  | GPIO_INTR_HIGH_LEVEL
  deriving DecidableEq

/-- Modelled from the spec: the declaration of `logic_analyzer_config_t` in
`logic_analyzer_hal.h` is not among the sources; these are the fields that
`la_cfg` is initialised with, `pin` being the table of the 16 channel pins and
the callback field being `sump_la_cb`. -/
structure logic_analyzer_config_t where
  pin : List Int
  pin_trigger : Int
  trigger_edge : gpio_int_type_t
  number_of_samples : Int
  sample_rate : Int
  number_channels : Int
  samples_to_psram : Int
  meashure_timeout : Int
  deriving DecidableEq

/-- Modelled from the spec: the declaration of `logic_analyzer_hw_param_t` in
`logic_analyzer_hal.h` is not among the sources; these are the fields the code
reads and writes, as C `int`s. -/
structure logic_analyzer_hw_param_t where
  current_channels : Int
  current_psram : Int
  max_sample_rate : Int
  min_sample_rate : Int
  max_sample_cnt : Int
  min_sample_cnt : Int
  deriving DecidableEq

/-- The file-scope and function-scope `static` variables of the source, the
transport (`rx`: bytes still to be read, `tx`: bytes written) and the log of
the configurations handed to `start_logic_analyzer`. -/
structure Session where
  first_trigger_pin : Int
  first_trigger_val : Int
  divider : Int
  readCount : Int
  delayCount : Int
  trigger : Int
  trigger_values : Int
  la_cfg : logic_analyzer_config_t
  la_hw : logic_analyzer_hw_param_t
  rx : List Nat
  tx : List Nat
  started : List logic_analyzer_config_t
  deriving DecidableEq

/-- The state the statics are initialised to, for a given configuration,
hardware description and host input. -/
def Session.init (cfg : logic_analyzer_config_t) (hw : logic_analyzer_hw_param_t)
    (rx : List Nat) : Session :=
  { first_trigger_pin := -1, first_trigger_val := 0, divider := 0, readCount := 0,
    delayCount := 0, trigger := 0, trigger_values := 0, la_cfg := cfg, la_hw := hw,
    rx := rx, tx := [], started := [] }

/-- Transport write `sump_write_data (buf, len)`, `buf` given as its bytes. -/
def sump_write_data (buf : List Nat) (s : Session) : Session :=
  { s with tx := s.tx ++ buf }

/-- Transport write `sump_writeByte (byte)`. -/
def sump_writeByte (byte : Nat) (s : Session) : Session :=
  { s with tx := s.tx ++ [uint8 byte] }

/-- The `union ucmd` payload word, as its four bytes in the order received. -/
structure ucmd where
  b0 : Nat
  b1 : Nat
  b2 : Nat
  b3 : Nat
  deriving DecidableEq

/-- Member `u_cmd32` of the union on the little-endian target. -/
def ucmd.u_cmd32 (c : ucmd) : Nat :=
  c.b0 % 256 + 256 * (c.b1 % 256) + 65536 * (c.b2 % 256) + 16777216 * (c.b3 % 256)

/-- Member `u_cmd16[0]` of the union. -/
def ucmd.u_cmd16_0 (c : ucmd) : Nat := c.b0 % 256 + 256 * (c.b1 % 256)

/-- Member `u_cmd16[1]` of the union. -/
def ucmd.u_cmd16_1 (c : ucmd) : Nat := c.b2 % 256 + 256 * (c.b3 % 256)

/-- Blocking read `sump_getCmd4`: the next four bytes of the transport, or
`none` when the host never sends them (the read does not return). -/
def sump_getCmd4 (s : Session) : Option (ucmd × Session) :=
  match s.rx with
  | b0 :: b1 :: b2 :: b3 :: rest => some (⟨b0, b1, b2, b3⟩, { s with rx := rest })
  | _ => none

/-! ## Capture orchestrator -/

/-- Function `sump_capture_and_send_samples`. The call of
`start_logic_analyzer (&la_cfg)` is logged in `started`; its error result only
selects between two returns. -/
def sump_capture_and_send_samples (s : Session) : Session :=
  let readCount := if s.readCount ≤ 0 then s.la_hw.min_sample_cnt else s.readCount
  let requested_rate := Int.tdiv s.la_hw.max_sample_rate (int32 (s.divider + 1))
  let requested_rate :=
    if requested_rate > s.la_hw.max_sample_rate then s.la_hw.max_sample_rate
    else requested_rate
  let requested_rate :=
    if requested_rate < s.la_hw.min_sample_rate then s.la_hw.min_sample_rate
    else requested_rate
  let pin_trigger :=
    if s.first_trigger_pin ≥ 0 then s.la_cfg.pin.getD s.first_trigger_pin.toNat 0 else -1
  let trigger_edge :=
    if s.first_trigger_val ≠ 0 then gpio_int_type_t.GPIO_INTR_POSEDGE
    else gpio_int_type_t.GPIO_INTR_NEGEDGE
  let la_cfg := { s.la_cfg with
    number_of_samples := readCount, sample_rate := requested_rate,
    pin_trigger := pin_trigger, trigger_edge := trigger_edge }
  { s with readCount := readCount, la_cfg := la_cfg, started := s.started ++ [la_cfg] }

/-! ## Metadata responder -/

/-- Function `sump_get_metadata`; `get_hw_param` is the engine's
`logic_analyzer_get_hw_param`, which fills in the hardware description. -/
def sump_get_metadata
    (get_hw_param : logic_analyzer_hw_param_t → logic_analyzer_hw_param_t)
    (s : Session) : Session :=
  let la_hw := get_hw_param { s.la_hw with
    current_channels := s.la_cfg.number_channels,
    current_psram := s.la_cfg.samples_to_psram }
  let s := { s with la_hw := la_hw }
  let s := sump_writeByte 0x01 s
  let s := sump_write_data [0x45, 0x53, 0x50, 0x33, 0x32, 0x00] s
  let s := sump_writeByte 0x02 s
  let s := sump_write_data [0x30, 0x2e, 0x30, 0x30, 0x00] s
  let capture_size : Nat :=
    if la_hw.current_channels > 4 then
      uint32 (la_hw.max_sample_cnt * Int.tdiv la_hw.current_channels 8)
    else uint32 la_hw.max_sample_cnt
  let s := sump_writeByte 0x21 s
  let s := sump_writeByte (uint8 (capture_size >>> 24) &&& 0xFF) s
  let s := sump_writeByte (uint8 (capture_size >>> 16) &&& 0xFF) s
  let s := sump_writeByte (uint8 (capture_size >>> 8) &&& 0xFF) s
  let s := sump_writeByte (uint8 (capture_size >>> 0) &&& 0xFF) s
  let capture_speed : Nat := uint32 la_hw.max_sample_rate
  let s := sump_writeByte 0x23 s
  let s := sump_writeByte (uint8 (capture_speed >>> 24) &&& 0xFF) s
  let s := sump_writeByte (uint8 (capture_speed >>> 16) &&& 0xFF) s
  let s := sump_writeByte (uint8 (capture_speed >>> 8) &&& 0xFF) s
  let s := sump_writeByte (uint8 (capture_speed >>> 0) &&& 0xFF) s
  let s := sump_writeByte 0x40 s
  let s := sump_writeByte
    (if la_hw.current_channels > 4 then uint8 (uint32 la_hw.current_channels) &&& 0xff
     else 8) s
  let s := sump_writeByte 0x41 s
  let s := sump_writeByte 0x02 s
  sump_writeByte 0x00 s

/-! ## Command dispatcher -/

/-- Modelled from the spec: the opcode constants `SUMP_*` of
`logic_analyzer_sump_definition.h` are not among the sources, so the command
byte is given by the name of the constant it equals; `OTHER` stands for every
byte that equals none of them (the `default` label of the `switch`). -/
inductive SumpCmd where
  | SUMP_RESET
  | SUMP_QUERY
  | SUMP_ARM
  | SUMP_TRIGGER_MASK_CH_A
  | SUMP_TRIGGER_VALUES_CH_A
  | SUMP_TRIGGER_MASK_CH_B
  | SUMP_TRIGGER_MASK_CH_C
  | SUMP_TRIGGER_MASK_CH_D
  | SUMP_TRIGGER_VALUES_CH_B
  | SUMP_TRIGGER_VALUES_CH_C
  | SUMP_TRIGGER_VALUES_CH_D
  | SUMP_TRIGGER_CONFIG_CH_A
  | SUMP_TRIGGER_CONFIG_CH_B
  | SUMP_TRIGGER_CONFIG_CH_C
  | SUMP_TRIGGER_CONFIG_CH_D
  | SUMP_SET_DIVIDER
  | SUMP_SET_READ_DELAY_COUNT
  | SUMP_SET_BIG_READ_CNT
  | SUMP_SET_FLAGS
  | SUMP_GET_METADATA
  | SUMP_SELF_TEST
  | OTHER
  deriving DecidableEq

/-- The search loop of `SUMP_TRIGGER_MASK_CH_A`: the first argument counts the
iterations that remain (`16 - i`), `pin` is the current `first_trigger_pin`;
the `break` ends the loop at the first set bit. -/
def trigger_pin_loop (trigger : Int) : Nat → Nat → Int → Int
  | 0, _, pin => pin
  | n + 1, i, pin =>
    if Int.land (trigger >>> i) 0x1 ≠ 0 then (i : Int)
    else trigger_pin_loop trigger n (i + 1) pin

/-- One call of the source function `sump_cmd_parser (cmdByte)`. The result is
`none` when a payload read never returns. -/
def sump_cmd_parser_step
    (get_hw_param : logic_analyzer_hw_param_t → logic_analyzer_hw_param_t)
    (cmdByte : SumpCmd) (s : Session) : Option Session :=
  match cmdByte with
  | .SUMP_RESET => some s
  | .SUMP_QUERY => some (sump_write_data [0x31, 0x41, 0x4c, 0x53] s)
  | .SUMP_ARM =>
    let s := if s.readCount ≤ 0 then { s with readCount := s.la_hw.min_sample_cnt } else s
    some (sump_capture_and_send_samples s)
  | .SUMP_TRIGGER_MASK_CH_A =>
    (sump_getCmd4 s).map fun (cmd, s) =>
      let trigger : Int := ((cmd.u_cmd32 &&& 0xffff : Nat) : Int)
      let first_trigger_pin : Int := -1
      let first_trigger_pin :=
        if trigger ≠ 0 then trigger_pin_loop trigger 16 0 first_trigger_pin
        else first_trigger_pin
      { s with trigger := trigger, first_trigger_pin := first_trigger_pin }
  | .SUMP_TRIGGER_VALUES_CH_A =>
    (sump_getCmd4 s).map fun (cmd, s) =>
      let trigger_values : Int := ((cmd.u_cmd32 &&& 0xffff : Nat) : Int)
      let first_trigger_val : Int := 0
      let first_trigger_val :=
        if s.trigger ≠ 0 then Int.land (trigger_values >>> s.first_trigger_pin.toNat) 1
        else first_trigger_val
      { s with trigger_values := trigger_values, first_trigger_val := first_trigger_val }
  | .SUMP_TRIGGER_MASK_CH_B
  | .SUMP_TRIGGER_MASK_CH_C
  | .SUMP_TRIGGER_MASK_CH_D
  | .SUMP_TRIGGER_VALUES_CH_B
  | .SUMP_TRIGGER_VALUES_CH_C
  | .SUMP_TRIGGER_VALUES_CH_D
  | .SUMP_TRIGGER_CONFIG_CH_A
  | .SUMP_TRIGGER_CONFIG_CH_B
  | .SUMP_TRIGGER_CONFIG_CH_C
  | .SUMP_TRIGGER_CONFIG_CH_D => (sump_getCmd4 s).map fun (_, s) => s
  | .SUMP_SET_DIVIDER =>
    (sump_getCmd4 s).map fun (cmd, s) =>
      { s with divider := ((cmd.u_cmd32 &&& 0xffffff : Nat) : Int) }
  | .SUMP_SET_READ_DELAY_COUNT =>
    (sump_getCmd4 s).map fun (cmd, s) =>
      { s with
        readCount := ((cmd.u_cmd16_0 &&& 0xffff : Nat) : Int) + 1,
        delayCount := ((cmd.u_cmd16_1 &&& 0xffff : Nat) : Int) + 1 }
  | .SUMP_SET_BIG_READ_CNT =>
    (sump_getCmd4 s).map fun (cmd, s) =>
      { s with readCount := int32 (uint32 ((cmd.u_cmd32 : Int) + 1)) }
  | .SUMP_SET_FLAGS => (sump_getCmd4 s).map fun (_, s) => s
  | .SUMP_GET_METADATA => some (sump_get_metadata get_hw_param s)
  | .SUMP_SELF_TEST => some s
  | .OTHER => some s

/-- Handling a sequence of commands one after the other, as the task loop
does. -/
def sump_run
    (get_hw_param : logic_analyzer_hw_param_t → logic_analyzer_hw_param_t) :
    List SumpCmd → Session → Option Session
  | [], s => some s
  | c :: cs, s => (sump_cmd_parser_step get_hw_param c s).bind (sump_run get_hw_param cs)

/-- The low 16 bits of the payload word. -/
def ucmd.low16 (c : ucmd) : Nat := c.u_cmd32 % 65536

/-- The low 24 bits of the payload word. -/
def ucmd.low24 (c : ucmd) : Nat := c.u_cmd32 % 16777216

/-- A channel pin table and configuration to evaluate the functions on. -/
def demo_cfg : logic_analyzer_config_t :=
  { pin := [32, 33, 25, 26, 27, 14, 12, 13, 23, 22, 21, 19, 18, 5, 17, 16],
    pin_trigger := -1, trigger_edge := gpio_int_type_t.GPIO_INTR_NEGEDGE,
    number_of_samples := 1000, sample_rate := 1000000, number_channels := 16,
    samples_to_psram := 0, meashure_timeout := 20 }

/-- A hardware description to evaluate the functions on. -/
def demo_hw : logic_analyzer_hw_param_t :=
  { current_channels := 16, current_psram := 0, max_sample_rate := 40000000,
    min_sample_rate := 5000, max_sample_cnt := 60000, min_sample_cnt := 100 }

/-- The four bytes of a 32-bit value, most significant byte first. -/
def be32 (x : Nat) : List Nat :=
  [x / 2 ^ 24 % 256, x / 2 ^ 16 % 256, x / 2 ^ 8 % 256, x % 256]

/-- The opcodes that the opcode table lists with a 4-byte payload. -/
def has_payload : SumpCmd → Bool
  | .SUMP_TRIGGER_MASK_CH_A | .SUMP_TRIGGER_MASK_CH_B
  | .SUMP_TRIGGER_MASK_CH_C | .SUMP_TRIGGER_MASK_CH_D
  | .SUMP_TRIGGER_VALUES_CH_A | .SUMP_TRIGGER_VALUES_CH_B
  | .SUMP_TRIGGER_VALUES_CH_C | .SUMP_TRIGGER_VALUES_CH_D
  | .SUMP_TRIGGER_CONFIG_CH_A | .SUMP_TRIGGER_CONFIG_CH_B
  | .SUMP_TRIGGER_CONFIG_CH_C | .SUMP_TRIGGER_CONFIG_CH_D
  | .SUMP_SET_DIVIDER | .SUMP_SET_READ_DELAY_COUNT
  | .SUMP_SET_BIG_READ_CNT | .SUMP_SET_FLAGS => true
  | _ => false

/-- The opcodes that the opcode table lists as having no effect: reset, self
test, flags, the trigger configuration of every channel, the trigger mask and
values of the channels B, C and D, and every byte that is not an opcode. -/
def is_no_effect : SumpCmd → Bool
  | .SUMP_RESET | .SUMP_SELF_TEST | .SUMP_SET_FLAGS
  | .SUMP_TRIGGER_CONFIG_CH_A | .SUMP_TRIGGER_CONFIG_CH_B
  | .SUMP_TRIGGER_CONFIG_CH_C | .SUMP_TRIGGER_CONFIG_CH_D
  | .SUMP_TRIGGER_MASK_CH_B | .SUMP_TRIGGER_MASK_CH_C | .SUMP_TRIGGER_MASK_CH_D
  | .SUMP_TRIGGER_VALUES_CH_B | .SUMP_TRIGGER_VALUES_CH_C | .SUMP_TRIGGER_VALUES_CH_D
  | .OTHER => true
  | _ => false

/-- The invariant of the trigger state: the trigger pin index lies in
`-1..15` and is non-negative exactly when the stored trigger mask is not
zero. -/
def trigger_inv (s : Session) : Prop :=
  -1 ≤ s.first_trigger_pin ∧ s.first_trigger_pin ≤ 15
    ∧ (0 ≤ s.first_trigger_pin ↔ s.trigger ≠ 0)

/-! ## Lemmas on the encoder loops -/

theorem int32_of_range (x : Int) (h1 : -2 ^ 31 ≤ x) (h2 : x < 2 ^ 31) : int32 x = x := by
  unfold int32
  omega

theorem la_loop8_pad (mem : Mem) (diff : Int) (k n i : Nat) (p : Int)
    (h : (i : Int) + k ≤ diff) :
    la_loop8 mem diff (k + n) i p
      = List.replicate k (zero_sample 1) ++ la_loop8 mem diff n (i + k) p := by
  induction k generalizing i with
  | zero => simp
  | succ k ih =>
    have hlt : (i : Int) < diff := by push_cast at h; omega
    have hk : ((i + 1 : Nat) : Int) + k ≤ diff := by push_cast at h ⊢; omega
    rw [show k + 1 + n = (k + n) + 1 by omega, la_loop8, if_pos hlt, ih (i + 1) hk,
      List.replicate_succ, show i + 1 + k = i + (k + 1) by omega]
    rfl

theorem la_loop8_data (mem : Mem) (diff c : Int) (n i : Nat) (h : diff ≤ i) :
    la_loop8 mem diff n i (c + n - 1)
      = (List.range n).reverse.map (fun (k : Nat) => (⟨some (c + k), [mem (c + k)]⟩ : Wr)) := by
  induction n generalizing i with
  | zero => simp [la_loop8]
  | succ n ih =>
    have hge : ¬ ((i : Int) < diff) := by omega
    have hi : diff ≤ ((i + 1 : Nat) : Int) := by push_cast; omega
    rw [la_loop8, if_neg hge, List.range_succ, List.reverse_append]
    have hp : c + ((n + 1 : Nat) : Int) - 1 = c + n := by push_cast; omega
    rw [hp, show c + (n : Int) - 1 = c + n - 1 from rfl, ih (i + 1) hi]
    simp

theorem la_loop16_pad (mem : Mem) (diff : Int) (k n i : Nat) (p : Int)
    (h : (i : Int) + k ≤ diff) :
    la_loop16 mem diff (k + n) i p
      = List.replicate k (zero_sample 2) ++ la_loop16 mem diff n (i + k) p := by
  induction k generalizing i with
  | zero => simp
  | succ k ih =>
    have hlt : (i : Int) < diff := by push_cast at h; omega
    have hk : ((i + 1 : Nat) : Int) + k ≤ diff := by push_cast at h ⊢; omega
    rw [show k + 1 + n = (k + n) + 1 by omega, la_loop16, if_pos hlt, ih (i + 1) hk,
      List.replicate_succ, show i + 1 + k = i + (k + 1) by omega]
    rfl

theorem la_loop16_data (mem : Mem) (diff c : Int) (n i : Nat) (h : diff ≤ i) :
    la_loop16 mem diff n i (c + n - 1)
      = (List.range n).reverse.map
          (fun (k : Nat) => (⟨some (c + k), [mem (2 * (c + k)), mem (2 * (c + k) + 1)]⟩ : Wr)) := by
  induction n generalizing i with
  | zero => simp [la_loop16]
  | succ n ih =>
    have hge : ¬ ((i : Int) < diff) := by omega
    have hi : diff ≤ ((i + 1 : Nat) : Int) := by push_cast; omega
    rw [la_loop16, if_neg hge, List.range_succ, List.reverse_append]
    have hp : c + ((n + 1 : Nat) : Int) - 1 = c + n := by push_cast; omega
    rw [hp, show c + (n : Int) - 1 = c + n - 1 from rfl, ih (i + 1) hi]
    simp

theorem la_loop4_pad (mem : Mem) (diff : Int) (k n i : Nat) (p : Int)
    (h : (i : Int) + k ≤ diff) :
    la_loop4 mem diff (k + n) i p
      = List.replicate k (zero_sample 1) ++ la_loop4 mem diff n (i + k) p := by
  induction k generalizing i with
  | zero => simp
  | succ k ih =>
    have hlt : (i : Int) < diff := by push_cast at h; omega
    have hk : ((i + 1 : Nat) : Int) + k ≤ diff := by push_cast at h ⊢; omega
    rw [show k + 1 + n = (k + n) + 1 by omega, la_loop4, if_pos hlt, ih (i + 1) hk,
      List.replicate_succ, show i + 1 + k = i + (k + 1) by omega]
    rfl

theorem la_loop4_get (mem : Mem) (diff : Int) (n i : Nat) (p : Int) (j : Nat)
    (hd : diff ≤ i) (hj : j < n) :
    (la_loop4 mem diff n i p)[j]?
      = some (nibble_write mem (i + j) (p - (((i % 2 + j) / 2 : Nat) : Int))) := by
  induction n generalizing i p j with
  | zero => omega
  | succ n ih =>
    have hge : ¬ ((i : Int) < diff) := by omega
    have hi : diff ≤ ((i + 1 : Nat) : Int) := by push_cast; omega
    have hand : i &&& 1 = i % 2 := Nat.and_one_is_mod i
    rw [la_loop4, if_neg hge, hand]
    rcases Nat.mod_two_eq_zero_or_one i with h0 | h1
    · rw [if_neg (by omega)]
      cases j with
      | zero => simp [nibble_write, h0]
      | succ j =>
        rw [List.getElem?_cons_succ, ih (i + 1) p j hi (by omega)]
        have e1 : i + 1 + j = i + (j + 1) := by omega
        have e2 : ((i + 1) % 2 + j) / 2 = (i % 2 + (j + 1)) / 2 := by omega
        rw [e1, e2]
    · rw [if_pos (by omega)]
      cases j with
      | zero => simp [nibble_write, h1]
      | succ j =>
        rw [List.getElem?_cons_succ, ih (i + 1) (p - 1) j hi (by omega)]
        have e1 : i + 1 + j = i + (j + 1) := by omega
        have e2 : p - 1 - ((((i + 1) % 2 + j) / 2 : Nat) : Int)
            = p - (((i % 2 + (j + 1)) / 2 : Nat) : Int) := by omega
        rw [e1, e2]

theorem la_loop4_length (mem : Mem) (diff : Int) (n i : Nat) (p : Int) :
    (la_loop4 mem diff n i p).length = n
      ∧ ∀ w ∈ la_loop4 mem diff n i p, w.bytes.length = 1 := by
  induction n generalizing i p with
  | zero => simp [la_loop4]
  | succ n ih =>
    rw [la_loop4]
    split
    · simp [ih, zero_sample]
      exact (ih _ _).2
    · split <;> simp [ih] <;> exact (ih _ _).2

/-- With one byte per write call the wire is the list of those bytes. -/
theorem wire_single (ws : List Wr) (h : ∀ w ∈ ws, w.bytes.length = 1) :
    wire ws = ws.map (fun w => w.bytes.headD 0) := by
  induction ws with
  | nil => simp [wire]
  | cons w ws ih =>
    have hw : w.bytes.length = 1 := h w (List.mem_cons_self _ _)
    have ht : ∀ v ∈ ws, v.bytes.length = 1 := fun v hv => h v (List.mem_cons_of_mem _ hv)
    have := ih ht
    simp only [wire, List.flatMap_cons, List.map_cons] at this ⊢
    rw [this]
    match hb : w.bytes, hw with
    | [b], _ => simp

theorem wire_append (xs ys : List Wr) : wire (xs ++ ys) = wire xs ++ wire ys := by
  simp [wire]

theorem wire_replicate_zero (k len : Nat) :
    wire (List.replicate k (zero_sample len)) = List.replicate (len * k) 0 := by
  induction k with
  | zero => simp [wire]
  | succ k ih =>
    rw [List.replicate_succ, show wire (zero_sample len :: List.replicate k (zero_sample len))
        = (zero_sample len).bytes ++ wire (List.replicate k (zero_sample len)) from by
          simp [wire], ih, zero_sample, Nat.mul_succ, Nat.add_comm (len * k) len,
      List.replicate_add]

theorem wire_map (l : List Nat) (w : Nat → Wr) :
    wire (l.map w) = l.flatMap (fun j => (w j).bytes) := by
  induction l with
  | nil => simp [wire]
  | cons a l ih =>
    simp only [wire, List.map_cons, List.flatMap_cons] at ih ⊢
    rw [ih]

theorem flatMap_single (l : List Nat) (f : Nat → Nat) :
    l.flatMap (fun j => [f j]) = l.map f := by
  induction l with
  | nil => simp
  | cons a l ih =>
    simp only [List.map_cons, List.flatMap_cons] at ih ⊢
    rw [ih]
    rfl

/-- The 8-channel branch for a delivery of `n` samples that is `k` samples
short of the request. -/
theorem sump_la_cb8_short (mem : Mem) (k n : Nat) (h : k + n < 2 ^ 31) :
    sump_la_cb ((k + n : Nat) : Int) (some mem) n 8
      = List.replicate k (zero_sample 1)
        ++ (List.range n).reverse.map (fun (j : Nat) => (⟨some (j : Int), [mem j]⟩ : Wr)) := by
  have hd : int32 (((k + n : Nat) : Int) - n) = k := by
    rw [int32_of_range] <;> push_cast <;> omega
  simp only [sump_la_cb, hd, if_true, Int.toNat_ofNat]
  rw [la_loop8_pad mem k k n 0 _ (by push_cast; omega)]
  have hp : ((k + n : Nat) : Int) - 1 - k = 0 + n - 1 := by push_cast; omega
  rw [hp, la_loop8_data mem k 0 n (0 + k) (by push_cast; omega)]
  simp

/-- The 16-channel branch for a delivery of `n` samples that is `k` samples
short of the request. -/
theorem sump_la_cb16_short (mem : Mem) (k n : Nat) (h : k + n < 2 ^ 31) :
    sump_la_cb ((k + n : Nat) : Int) (some mem) n 16
      = List.replicate k (zero_sample 2)
        ++ (List.range n).reverse.map
            (fun (j : Nat) => (⟨some (j : Int), [mem (2 * j), mem (2 * j + 1)]⟩ : Wr)) := by
  have hd : int32 (((k + n : Nat) : Int) - n) = k := by
    rw [int32_of_range] <;> push_cast <;> omega
  simp only [sump_la_cb, hd, Int.toNat_ofNat]
  rw [if_neg (by decide)]
  simp only [if_true]
  rw [la_loop16_pad mem k k n 0 _ (by push_cast; omega)]
  have hp : ((k + n : Nat) : Int) - 1 - k = 0 + n - 1 := by push_cast; omega
  rw [hp, la_loop16_data mem k 0 n (0 + k) (by push_cast; omega)]
  simp

/-! ## The sample stream encoder: widths 8 and 16 -/

/-- C1: for channel widths 8 and 16, a request of `rc` samples and a delivery
of `cnt` samples with `0 ≤ cnt ≤ rc`, `sump_la_cb` makes exactly `rc` write
calls: first `rc - cnt` calls that send the zero sample (one zero byte for
width 8, two for width 16), then the delivered elements `cnt - 1, ..., 0` in
that order, each with its bytes in memory order; on the wire this is the zero
bytes followed by the bytes of those elements. -/
theorem sump_la_cb_width_8_16_reversed_zero_padded (mem : Mem) (rc cnt : Int)
    (h0 : 0 ≤ cnt) (h1 : cnt ≤ rc) (h2 : rc < 2 ^ 31) :
    (sump_la_cb rc (some mem) cnt 8
        = List.replicate (rc - cnt).toNat (zero_sample 1)
          ++ (List.range cnt.toNat).reverse.map (fun (j : Nat) => (⟨some (j : Int), [mem j]⟩ : Wr)))
    ∧ (sump_la_cb rc (some mem) cnt 16
        = List.replicate (rc - cnt).toNat (zero_sample 2)
          ++ (List.range cnt.toNat).reverse.map
              (fun (j : Nat) => (⟨some (j : Int), [mem (2 * j), mem (2 * j + 1)]⟩ : Wr)))
    ∧ (sump_la_cb rc (some mem) cnt 8).length = rc.toNat
    ∧ (sump_la_cb rc (some mem) cnt 16).length = rc.toNat
    ∧ (wire (sump_la_cb rc (some mem) cnt 8)
        = List.replicate (rc - cnt).toNat 0
          ++ (List.range cnt.toNat).reverse.map (fun (j : Nat) => mem j))
    ∧ (wire (sump_la_cb rc (some mem) cnt 16)
        = List.replicate (2 * (rc - cnt).toNat) 0
          ++ (List.range cnt.toNat).reverse.flatMap
              (fun (j : Nat) => [mem (2 * j), mem (2 * j + 1)])) := by
  obtain ⟨n, rfl⟩ := Int.eq_ofNat_of_zero_le h0
  obtain ⟨k, hk⟩ := Int.eq_ofNat_of_zero_le (show 0 ≤ rc - (n : Int) by omega)
  have hrc : rc = ((k + n : Nat) : Int) := by push_cast; omega
  subst hrc
  have hkn : k + n < 2 ^ 31 := by exact_mod_cast h2
  have e8 := sump_la_cb8_short mem k n hkn
  have e16 := sump_la_cb16_short mem k n hkn
  have hk2 : (((k + n : Nat) : Int) - (n : Int)).toNat = k := by rw [hk]; rfl
  rw [hk2, Int.toNat_ofNat, Int.toNat_ofNat]
  refine ⟨e8, e16, ?_, ?_, ?_, ?_⟩
  · rw [e8]; simp
  · rw [e16]; simp
  · rw [e8, wire_append, wire_replicate_zero, wire_map, flatMap_single, Nat.one_mul]
  · rw [e16, wire_append, wire_replicate_zero, wire_map]

/-- Witness of C1: width 8, `rc = 5`, `cnt = 3`, buffer `[a, b, c]` gives
`00 00 c b a`. -/
theorem sump_la_cb_width_8_16_reversed_zero_padded_witness :
    wire (sump_la_cb 5 (some (bufMem [0x0a, 0x0b, 0x0c] 0xee)) 3 8)
      = [0x00, 0x00, 0x0c, 0x0b, 0x0a] := by
  have h := (sump_la_cb_width_8_16_reversed_zero_padded (bufMem [0x0a, 0x0b, 0x0c] 0xee) 5 3
    (by decide) (by decide) (by decide)).2.2.2.2.1
  rw [h]
  decide

/-! ## The sample stream encoder: width 4 -/

theorem uint8_and_0xf (x : Nat) : uint8 (x &&& 0xf) = x &&& 0xf := by
  have h : x &&& 0xf ≤ 0xf := Nat.and_le_right
  unfold uint8
  omega

theorem nibble_write_byte (mem : Mem) (t : Nat) (q : Int) :
    (nibble_write mem t q).bytes.headD 0
      = if t % 2 = 1 then mem q &&& 0xf else (mem q >>> 4) &&& 0xf := by
  unfold nibble_write
  split <;> simp [uint8_and_0xf]

/-- The 4-channel branch for a full delivery of `2 * m` samples: the write call
number `j` sends a nibble of the byte at index `m - 1 - j / 2`, the high one
for even `j` and the low one for odd `j`. -/
theorem sump_la_cb4_full_get (mem : Mem) (m j : Nat) (h : 2 * m < 2 ^ 31) (hj : j < 2 * m) :
    (sump_la_cb ((2 * m : Nat) : Int) (some mem) ((2 * m : Nat) : Int) 4)[j]?
      = some (nibble_write mem j ((m : Int) - 1 - ((j / 2 : Nat) : Int))) := by
  have hd : int32 (((2 * m : Nat) : Int) - ((2 * m : Nat) : Int)) = 0 := by
    rw [int32_of_range] <;> omega
  have ht : Int.tdiv ((2 * m : Nat) : Int) 2 = m := by
    rw [Int.tdiv_eq_ediv (by omega) (by omega)]
    omega
  simp only [sump_la_cb, hd, ht, Int.toNat_ofNat]
  rw [if_neg (by decide), if_neg (by decide),
    la_loop4_get mem 0 (2 * m) 0 _ j (by simp) hj]
  simp

/-- The wire bytes of the 4-channel branch, one per write call. -/
theorem sump_la_cb4_wire (mem : Mem) (rc cnt : Int) :
    wire (sump_la_cb rc (some mem) cnt 4)
      = (sump_la_cb rc (some mem) cnt 4).map (fun w => w.bytes.headD 0) := by
  apply wire_single
  simp only [sump_la_cb]
  rw [if_neg (by decide), if_neg (by decide)]
  exact (la_loop4_length mem _ _ _ _).2

/-- C2: for channel width 4, an even request `rc` delivered in full
(`cnt = rc`) and a buffer of `rc / 2` bytes, `sump_la_cb` writes exactly `rc`
bytes, each at most `0x0F`, and for every `k < rc / 2` output byte `2 * k` is
the high nibble and output byte `2 * k + 1` the low nibble of buffer byte
`rc / 2 - 1 - k`. -/
theorem sump_la_cb_width_4_full_delivery (mem : Mem) (rc : Int)
    (h0 : 0 ≤ rc) (he : rc % 2 = 0) (h2 : rc < 2 ^ 31) :
    (wire (sump_la_cb rc (some mem) rc 4)).length = rc.toNat
    ∧ (∀ x ∈ wire (sump_la_cb rc (some mem) rc 4), x ≤ 0x0F)
    ∧ ∀ k : Nat, (k : Int) < rc / 2 →
        (wire (sump_la_cb rc (some mem) rc 4))[2 * k]?
            = some ((mem (rc / 2 - 1 - k) >>> 4) &&& 0xF)
          ∧ (wire (sump_la_cb rc (some mem) rc 4))[2 * k + 1]?
            = some (mem (rc / 2 - 1 - k) &&& 0xF) := by
  obtain ⟨m, hm⟩ : ∃ m : Nat, rc = ((2 * m : Nat) : Int) :=
    ⟨(rc / 2).toNat, by push_cast; omega⟩
  subst hm
  have hm31 : 2 * m < 2 ^ 31 := by exact_mod_cast h2
  have hhalf : ((2 * m : Nat) : Int) / 2 = m := by omega
  have hlen : (sump_la_cb ((2 * m : Nat) : Int) (some mem) ((2 * m : Nat) : Int) 4).length
      = 2 * m := by
    simp only [sump_la_cb, Int.toNat_ofNat]
    rw [if_neg (by decide), if_neg (by decide)]
    exact (la_loop4_length mem _ _ _ _).1
  rw [sump_la_cb4_wire, hhalf]
  refine ⟨by rw [List.length_map, hlen, Int.toNat_ofNat], ?_, ?_⟩
  · intro x hx
    obtain ⟨w, hw, rfl⟩ := List.mem_map.1 hx
    obtain ⟨j, hj, hwj⟩ := List.getElem_of_mem hw
    have hj2 : j < 2 * m := by rw [hlen] at hj; exact hj
    have hget := sump_la_cb4_full_get mem m j hm31 hj2
    rw [List.getElem?_eq_getElem hj, hwj] at hget
    have hw2 : nibble_write mem j ((m : Int) - 1 - ((j / 2 : Nat) : Int)) = w :=
      (Option.some.inj hget).symm
    rw [← hw2, nibble_write_byte]
    split
    · exact Nat.and_le_right
    · exact Nat.and_le_right
  · intro k hk
    have hkm : k < m := by omega
    rw [List.getElem?_map, List.getElem?_map,
      sump_la_cb4_full_get mem m (2 * k) hm31 (by omega),
      sump_la_cb4_full_get mem m (2 * k + 1) hm31 (by omega)]
    simp only [Option.map_some', nibble_write_byte]
    have e1 : (2 * k) / 2 = k := by omega
    have e2 : (2 * k + 1) / 2 = k := by omega
    rw [e1, e2, if_neg (by omega), if_pos (by omega)]
    exact ⟨rfl, rfl⟩

/-- Witness of C2: `rc = cnt = 4`, buffer `[0xAB, 0xCD]` gives
`0x0C, 0x0D, 0x0A, 0x0B`. -/
theorem sump_la_cb_width_4_full_delivery_witness :
    (wire (sump_la_cb 4 (some (bufMem [0xAB, 0xCD] 0xEE)) 4 4)).length = 4
    ∧ (wire (sump_la_cb 4 (some (bufMem [0xAB, 0xCD] 0xEE)) 4 4))[0]? = some 0x0C
    ∧ (wire (sump_la_cb 4 (some (bufMem [0xAB, 0xCD] 0xEE)) 4 4))[1]? = some 0x0D
    ∧ (wire (sump_la_cb 4 (some (bufMem [0xAB, 0xCD] 0xEE)) 4 4))[2]? = some 0x0A
    ∧ (wire (sump_la_cb 4 (some (bufMem [0xAB, 0xCD] 0xEE)) 4 4))[3]? = some 0x0B := by
  have h := sump_la_cb_width_4_full_delivery (bufMem [0xAB, 0xCD] 0xEE) 4
    (by decide) (by decide) (by decide)
  exact ⟨h.1, (h.2.2 0 (by decide)).1, (h.2.2 0 (by decide)).2,
    (h.2.2 1 (by decide)).1, (h.2.2 1 (by decide)).2⟩

/-- The wire byte number `j` of the 4-channel branch for a full delivery of
`2 * m` samples. -/
theorem sump_la_cb4_full_wire_get (mem : Mem) (m j : Nat) (h : 2 * m < 2 ^ 31)
    (hj : j < 2 * m) :
    (wire (sump_la_cb ((2 * m : Nat) : Int) (some mem) ((2 * m : Nat) : Int) 4))[j]?
      = some (if j % 2 = 1 then mem ((m : Int) - 1 - ((j / 2 : Nat) : Int)) &&& 0xf
              else (mem ((m : Int) - 1 - ((j / 2 : Nat) : Int)) >>> 4) &&& 0xf) := by
  rw [sump_la_cb4_wire, List.getElem?_map, sump_la_cb4_full_get mem m j h hj]
  simp only [Option.map_some', nibble_write_byte]

/-- C3 (as amended): for channel width 4 and an even request `rc` delivered in
full, the bytes are sent last-captured-first but the two samples of a byte
keep their order: for every `k < rc / 2` output byte `2 * k` is logical sample
`rc - 2 - 2 * k` and output byte `2 * k + 1` is logical sample
`rc - 1 - 2 * k`. -/
theorem sump_la_cb_width_4_pairs_reversed (mem : Mem) (rc : Int)
    (h0 : 0 ≤ rc) (he : rc % 2 = 0) (h2 : rc < 2 ^ 31) :
    ∀ k : Nat, (k : Int) < rc / 2 →
      (wire (sump_la_cb rc (some mem) rc 4))[2 * k]?
          = some (logical_sample mem (rc - 2 - 2 * k))
        ∧ (wire (sump_la_cb rc (some mem) rc 4))[2 * k + 1]?
          = some (logical_sample mem (rc - 1 - 2 * k)) := by
  obtain ⟨m, hm⟩ : ∃ m : Nat, rc = ((2 * m : Nat) : Int) :=
    ⟨(rc / 2).toNat, by push_cast; omega⟩
  subst hm
  have hm31 : 2 * m < 2 ^ 31 := by exact_mod_cast h2
  intro k hk
  have hkm : k < m := by omega
  rw [sump_la_cb4_full_wire_get mem m (2 * k) hm31 (by omega),
    sump_la_cb4_full_wire_get mem m (2 * k + 1) hm31 (by omega)]
  have e1 : (2 * k) / 2 = k := by omega
  have e2 : (2 * k + 1) / 2 = k := by omega
  have m0 : (((2 * m : Nat) : Int) - 2 - 2 * (k : Int)) % 2 = 0 := by omega
  have m1 : ¬ ((((2 * m : Nat) : Int) - 1 - 2 * (k : Int)) % 2 = 0) := by omega
  have d0 : (((2 * m : Nat) : Int) - 2 - 2 * (k : Int)) / 2 = (m : Int) - 1 - k := by omega
  have d1 : (((2 * m : Nat) : Int) - 1 - 2 * (k : Int)) / 2 = (m : Int) - 1 - k := by omega
  rw [e1, e2, if_neg (by omega), if_pos (by omega)]
  unfold logical_sample
  rw [if_pos m0, if_neg m1, d0, d1]
  exact ⟨rfl, rfl⟩

/-- Witness of C3 (as amended): `rc = cnt = 4` with buffer `[0xAB, 0xCD]`; the
first pair sent is the logical samples 2 and 3. -/
theorem sump_la_cb_width_4_pairs_reversed_witness :
    (wire (sump_la_cb 4 (some (bufMem [0xAB, 0xCD] 0xEE)) 4 4))[0]?
        = some (logical_sample (bufMem [0xAB, 0xCD] 0xEE) 2)
      ∧ (wire (sump_la_cb 4 (some (bufMem [0xAB, 0xCD] 0xEE)) 4 4))[1]?
        = some (logical_sample (bufMem [0xAB, 0xCD] 0xEE) 3) :=
  sump_la_cb_width_4_pairs_reversed (bufMem [0xAB, 0xCD] 0xEE) 4
    (by decide) (by decide) (by decide) 0 (by decide)

/-- Counterexample to C3 as stated: for `rc = cnt = 4` and buffer
`[0xAB, 0xCD]` the output is the sequence `0x0C, 0x0D, 0x0A, 0x0B`, and output
byte `i` is not logical sample `rc - 1 - i` for every `i`. -/
theorem sump_la_cb_width_4_not_last_sample_first :
    wire (sump_la_cb 4 (some (bufMem [0xAB, 0xCD] 0xEE)) 4 4) = [0x0C, 0x0D, 0x0A, 0x0B]
    ∧ ¬ (∀ i : Nat, i < 4 →
          (wire (sump_la_cb 4 (some (bufMem [0xAB, 0xCD] 0xEE)) 4 4))[i]?
            = some (logical_sample (bufMem [0xAB, 0xCD] 0xEE) (4 - 1 - (i : Int)))) := by
  refine ⟨by decide, fun h => ?_⟩
  have h0 := h 0 (by decide)
  revert h0
  decide

/-- C4, the code at the failing input: for width 4, `rc = 4`, `cnt = 2` and the
one-byte buffer `[0xAB]`, the two data writes read the byte at index `-1`,
before the buffer, and the wire is not `00 00 0A 0B`. -/
theorem sump_la_cb_width_4_short_delivery_reads_before_buffer :
    sump_la_cb 4 (some (bufMem [0xAB] 0xEE)) 2 4
        = [zero_sample 1, zero_sample 1, ⟨some (-1), [0x0E]⟩, ⟨some (-1), [0x0E]⟩]
    ∧ wire (sump_la_cb 4 (some (bufMem [0xAB] 0xEE)) 2 4) ≠ [0x00, 0x00, 0x0A, 0x0B] := by
  decide

/-! ## The sample stream encoder: number of units sent -/

/-- C5, the code at two failing inputs. For width 4, `rc = 4`, `cnt = 2` and the
one-byte buffer `[0xAB]` the callback writes the two zero bytes and then reads
outside the buffer: 2 of the 4 requested units are sent. For width 4, `rc = 1`,
`cnt = 4` and the two-byte buffer `[0xAB, 0xCD]` the first read is outside the
buffer: none of the 1 requested units is sent. Width 8 on the counts of the
first input, with the two-byte buffer `[0xAB, 0xCD]`, sends all 4 units. -/
theorem sump_la_cb_width_4_stops_before_requested_count :
    sump_la_cb_on_buffer 4 (some [0xAB]) 2 4 = ⟨[zero_sample 1, zero_sample 1], true⟩
    ∧ sump_la_cb_on_buffer 1 (some [0xAB, 0xCD]) 4 4 = ⟨[], true⟩
    ∧ sump_la_cb_on_buffer 4 (some [0xAB, 0xCD]) 2 8
        = ⟨[zero_sample 1, zero_sample 1, ⟨some 1, [0xCD]⟩, ⟨some 0, [0xAB]⟩], false⟩ := by
  decide

/-- C6, the code at the failing input: for width 4, `rc = 1`, `cnt = 4` and the
two-byte buffer `[0xAB, 0xCD]` that holds the four delivered samples, the one
byte read is at index `2`, past the end of the buffer. -/
theorem sump_la_cb_width_4_over_delivery_reads_past_buffer :
    reads (sump_la_cb 1 (some (bufMem [0xAB, 0xCD] 0xEE)) 4 4) = [2]
    ∧ wire (sump_la_cb 1 (some (bufMem [0xAB, 0xCD] 0xEE)) 4 4) = [0x0E] := by
  decide

/-! ## Trigger resolver -/

theorem int_land_one_shift (m i : Nat) :
    (Int.land ((m : Int) >>> i) 0x1 ≠ 0) ↔ m.testBit i = true := by
  have h1 : Int.land ((m : Int) >>> i) 0x1 = (((m >>> i) &&& 1 : Nat) : Int) := rfl
  rw [h1, Nat.and_one_is_mod, Nat.shiftRight_eq_div_pow, Nat.testBit_to_div_mod]
  simp only [decide_eq_true_eq]
  omega

/-- The search loop returns the first set bit at or after `i` when there is
one among the `n` bits it looks at. -/
theorem trigger_pin_loop_first (m : Nat) (n i : Nat) (pin : Int)
    (hlow : ∀ j, j < i → m.testBit j = false)
    (hex : ∃ p, i ≤ p ∧ p < i + n ∧ m.testBit p = true) :
    ∃ p : Nat, p < i + n ∧ trigger_pin_loop (m : Int) n i pin = (p : Int)
      ∧ m.testBit p = true ∧ ∀ j, j < p → m.testBit j = false := by
  induction n generalizing i with
  | zero =>
    obtain ⟨p, h1, h2, _⟩ := hex
    omega
  | succ n ih =>
    rw [trigger_pin_loop]
    by_cases hb : m.testBit i = true
    · rw [if_pos ((int_land_one_shift m i).2 hb)]
      exact ⟨i, by omega, rfl, hb, hlow⟩
    · rw [if_neg (fun h => hb ((int_land_one_shift m i).1 h))]
      have hb2 : m.testBit i = false := by simpa using hb
      have hlow2 : ∀ j, j < i + 1 → m.testBit j = false := by
        intro j hj
        rcases Nat.lt_succ_iff_lt_or_eq.1 hj with h | h
        · exact hlow j h
        · rw [h]; exact hb2
      have hex2 : ∃ p, i + 1 ≤ p ∧ p < i + 1 + n ∧ m.testBit p = true := by
        obtain ⟨p, h1, h2, h3⟩ := hex
        have hne : p ≠ i := fun h => hb (h ▸ h3)
        exact ⟨p, by omega, by omega, h3⟩
      obtain ⟨p, hp1, hp2, hp3, hp4⟩ := ih (i + 1) hlow2 hex2
      exact ⟨p, by omega, hp2, hp3, hp4⟩

/-- A non-zero 16-bit mask has a lowest set bit, which the search loop of
`SUMP_TRIGGER_MASK_CH_A` returns. -/
theorem trigger_pin_loop_mask (m : Nat) (h0 : m ≠ 0) (h16 : m < 65536) (pin : Int) :
    ∃ p : Nat, p < 16 ∧ trigger_pin_loop (m : Int) 16 0 pin = (p : Int)
      ∧ m.testBit p = true ∧ ∀ j, j < p → m.testBit j = false := by
  obtain ⟨q, hq⟩ := Nat.ne_zero_implies_bit_true h0
  have hq16 : q < 16 := by
    have hge := Nat.testBit_implies_ge hq
    have hlt : 2 ^ q < 2 ^ 16 := by omega
    exact (Nat.pow_lt_pow_iff_right (by decide)).1 hlt
  obtain ⟨p, hp1, hp2, hp3, hp4⟩ :=
    trigger_pin_loop_first m 16 0 pin (fun j hj => absurd hj (Nat.not_lt_zero j))
      ⟨q, Nat.zero_le q, by omega, hq⟩
  exact ⟨p, by omega, hp2, hp3, hp4⟩

theorem u_cmd32_low16 (b0 b1 b2 b3 : Nat) :
    (ucmd.mk b0 b1 b2 b3).u_cmd32 &&& 0xffff = b0 % 256 + 256 * (b1 % 256) := by
  rw [show (0xffff : Nat) = 2 ^ 16 - 1 by decide, Nat.and_pow_two_sub_one_eq_mod]
  simp only [ucmd.u_cmd32]
  omega

theorem u_cmd32_low24 (b0 b1 b2 b3 : Nat) :
    (ucmd.mk b0 b1 b2 b3).u_cmd32 &&& 0xffffff
      = b0 % 256 + 256 * (b1 % 256) + 65536 * (b2 % 256) := by
  rw [show (0xffffff : Nat) = 2 ^ 24 - 1 by decide, Nat.and_pow_two_sub_one_eq_mod]
  simp only [ucmd.u_cmd32]
  omega

/-- The state after `SUMP_TRIGGER_MASK_CH_A` with the payload `b0 b1 b2 b3`. -/
theorem trigger_mask_step
    (hal : logic_analyzer_hw_param_t → logic_analyzer_hw_param_t)
    (s : Session) (b0 b1 b2 b3 : Nat) (rest : List Nat)
    (hrx : s.rx = b0 :: b1 :: b2 :: b3 :: rest) :
    sump_cmd_parser_step hal .SUMP_TRIGGER_MASK_CH_A s
      = some { s with
          rx := rest,
          trigger := ((b0 % 256 + 256 * (b1 % 256) : Nat) : Int),
          first_trigger_pin :=
            if ((b0 % 256 + 256 * (b1 % 256) : Nat) : Int) ≠ 0 then
              trigger_pin_loop ((b0 % 256 + 256 * (b1 % 256) : Nat) : Int) 16 0 (-1)
            else -1 } := by
  simp only [sump_cmd_parser_step, sump_getCmd4, hrx, Option.map_some', u_cmd32_low16]

theorem low16_bytes (b0 b1 b2 b3 : Nat) :
    (ucmd.mk b0 b1 b2 b3).low16 = b0 % 256 + 256 * (b1 % 256) := by
  simp only [ucmd.low16, ucmd.u_cmd32]
  omega

theorem low24_bytes (b0 b1 b2 b3 : Nat) :
    (ucmd.mk b0 b1 b2 b3).low24 = b0 % 256 + 256 * (b1 % 256) + 65536 * (b2 % 256) := by
  simp only [ucmd.low24, ucmd.u_cmd32]
  omega

/-- C7: for every 4-byte payload of `SUMP_TRIGGER_MASK_CH_A` and every previous
state, with `m` the low 16 bits of the little-endian payload word, the command
leaves the trigger pin index at `-1` when `m = 0` and otherwise at the index
`p < 16` of the lowest set bit of `m` (bit `p` is set and no bit below it is);
the upper payload bytes, the bits of `m` above `p` and the previous state do
not enter. -/
theorem trigger_mask_selects_lowest_set_bit
    (hal : logic_analyzer_hw_param_t → logic_analyzer_hw_param_t)
    (s : Session) (b0 b1 b2 b3 : Nat) (rest : List Nat)
    (hrx : s.rx = b0 :: b1 :: b2 :: b3 :: rest) :
    ∃ s1 : Session, sump_cmd_parser_step hal .SUMP_TRIGGER_MASK_CH_A s = some s1
      ∧ ((ucmd.mk b0 b1 b2 b3).low16 = 0 → s1.first_trigger_pin = -1)
      ∧ ((ucmd.mk b0 b1 b2 b3).low16 ≠ 0 →
          ∃ p : Nat, p < 16 ∧ s1.first_trigger_pin = (p : Int)
            ∧ (ucmd.mk b0 b1 b2 b3).low16.testBit p = true
            ∧ ∀ j, j < p → (ucmd.mk b0 b1 b2 b3).low16.testBit j = false) := by
  refine ⟨_, trigger_mask_step hal s b0 b1 b2 b3 rest hrx, ?_, ?_⟩
  · intro hm
    rw [low16_bytes] at hm
    simp only [hm]
    rfl
  · intro hm
    rw [low16_bytes] at hm ⊢
    have hlt : b0 % 256 + 256 * (b1 % 256) < 65536 := by omega
    obtain ⟨p, hp1, hp2, hp3, hp4⟩ := trigger_pin_loop_mask _ hm hlt (-1)
    refine ⟨p, hp1, ?_, hp3, hp4⟩
    have hne : ((b0 % 256 + 256 * (b1 % 256) : Nat) : Int) ≠ 0 := by exact_mod_cast hm
    simp only [if_pos hne]
    exact hp2

/-- Witness of C7: mask `0x0004` gives pin 2 and mask `0x0000` gives pin -1,
here with upper payload bytes `0xFF 0xFF`. -/
theorem trigger_mask_selects_lowest_set_bit_witness :
    (∃ s1 : Session,
      sump_cmd_parser_step id .SUMP_TRIGGER_MASK_CH_A
          (Session.init demo_cfg demo_hw [0x04, 0x00, 0xFF, 0xFF]) = some s1
      ∧ ((ucmd.mk 0x04 0x00 0xFF 0xFF).low16 = 0 → s1.first_trigger_pin = -1)
      ∧ ((ucmd.mk 0x04 0x00 0xFF 0xFF).low16 ≠ 0 →
          ∃ p : Nat, p < 16 ∧ s1.first_trigger_pin = (p : Int)
            ∧ (ucmd.mk 0x04 0x00 0xFF 0xFF).low16.testBit p = true
            ∧ ∀ j, j < p → (ucmd.mk 0x04 0x00 0xFF 0xFF).low16.testBit j = false))
    ∧ (sump_cmd_parser_step id .SUMP_TRIGGER_MASK_CH_A
          (Session.init demo_cfg demo_hw [0x04, 0x00, 0xFF, 0xFF])).map
        Session.first_trigger_pin = some 2
    ∧ (sump_cmd_parser_step id .SUMP_TRIGGER_MASK_CH_A
          (Session.init demo_cfg demo_hw [0x00, 0x00, 0xFF, 0xFF])).map
        Session.first_trigger_pin = some (-1) :=
  ⟨trigger_mask_selects_lowest_set_bit id
      (Session.init demo_cfg demo_hw [0x04, 0x00, 0xFF, 0xFF]) 0x04 0x00 0xFF 0xFF [] rfl,
    by decide, by decide⟩

theorem int_land_one_shift_val (v p : Nat) :
    Int.land ((v : Int) >>> p) 1 = if v.testBit p = true then 1 else 0 := by
  have h1 : Int.land ((v : Int) >>> p) 1 = (((v >>> p) &&& 1 : Nat) : Int) := rfl
  rw [h1, Nat.and_one_is_mod, Nat.shiftRight_eq_div_pow, Nat.testBit_to_div_mod]
  simp only [decide_eq_true_eq]
  split <;> omega

/-- The state after `SUMP_TRIGGER_VALUES_CH_A` with the payload `b0 b1 b2 b3`. -/
theorem trigger_values_step
    (hal : logic_analyzer_hw_param_t → logic_analyzer_hw_param_t)
    (s : Session) (b0 b1 b2 b3 : Nat) (rest : List Nat)
    (hrx : s.rx = b0 :: b1 :: b2 :: b3 :: rest) :
    sump_cmd_parser_step hal .SUMP_TRIGGER_VALUES_CH_A s
      = some { s with
          rx := rest,
          trigger_values := ((b0 % 256 + 256 * (b1 % 256) : Nat) : Int),
          first_trigger_val :=
            if s.trigger ≠ 0 then
              Int.land (((b0 % 256 + 256 * (b1 % 256) : Nat) : Int)
                >>> s.first_trigger_pin.toNat) 1
            else 0 } := by
  simp only [sump_cmd_parser_step, sump_getCmd4, hrx, Option.map_some', u_cmd32_low16]

/-- The state after `SUMP_SET_DIVIDER` with the payload `b0 b1 b2 b3`. -/
theorem set_divider_step
    (hal : logic_analyzer_hw_param_t → logic_analyzer_hw_param_t)
    (s : Session) (b0 b1 b2 b3 : Nat) (rest : List Nat)
    (hrx : s.rx = b0 :: b1 :: b2 :: b3 :: rest) :
    sump_cmd_parser_step hal .SUMP_SET_DIVIDER s
      = some { s with
          rx := rest,
          divider := ((b0 % 256 + 256 * (b1 % 256) + 65536 * (b2 % 256) : Nat) : Int) } := by
  simp only [sump_cmd_parser_step, sump_getCmd4, hrx, Option.map_some', u_cmd32_low24]

/-- C8: for every mask payload whose low 16 bits `m` are not zero and every
value payload with low 16 bits `v`, handling `SUMP_TRIGGER_MASK_CH_A` and then
`SUMP_TRIGGER_VALUES_CH_A` leaves the trigger pin at the index `p` of the
lowest set bit of `m` and the trigger edge value at 1 (rising) when bit `p` of
`v` is set and at 0 (falling) when it is not; a following `SUMP_ARM` hands the
engine a configuration whose trigger pin is `pin[p]` and whose edge is
`GPIO_INTR_POSEDGE` in the first case and `GPIO_INTR_NEGEDGE` in the second. -/
theorem trigger_values_select_edge
    (hal : logic_analyzer_hw_param_t → logic_analyzer_hw_param_t)
    (s : Session) (a0 a1 a2 a3 c0 c1 c2 c3 : Nat) (rest : List Nat)
    (hrx : s.rx = a0 :: a1 :: a2 :: a3 :: c0 :: c1 :: c2 :: c3 :: rest)
    (hm : (ucmd.mk a0 a1 a2 a3).low16 ≠ 0) :
    ∃ (p : Nat) (s2 s3 : Session),
      p < 16 ∧ (ucmd.mk a0 a1 a2 a3).low16.testBit p = true
      ∧ (∀ j, j < p → (ucmd.mk a0 a1 a2 a3).low16.testBit j = false)
      ∧ sump_run hal [.SUMP_TRIGGER_MASK_CH_A, .SUMP_TRIGGER_VALUES_CH_A] s = some s2
      ∧ s2.first_trigger_pin = (p : Int)
      ∧ s2.first_trigger_val = (if (ucmd.mk c0 c1 c2 c3).low16.testBit p = true then 1 else 0)
      ∧ sump_cmd_parser_step hal .SUMP_ARM s2 = some s3
      ∧ s3.started = s.started ++ [s3.la_cfg]
      ∧ s3.la_cfg.pin_trigger = s.la_cfg.pin.getD p 0
      ∧ s3.la_cfg.trigger_edge
          = (if (ucmd.mk c0 c1 c2 c3).low16.testBit p = true
              then gpio_int_type_t.GPIO_INTR_POSEDGE
              else gpio_int_type_t.GPIO_INTR_NEGEDGE) := by
  rw [low16_bytes] at hm
  rw [low16_bytes, low16_bytes]
  have hlt : a0 % 256 + 256 * (a1 % 256) < 65536 := by omega
  obtain ⟨p, hp1, hp2, hp3, hp4⟩ := trigger_pin_loop_mask _ hm hlt (-1)
  have hne : ((a0 % 256 + 256 * (a1 % 256) : Nat) : Int) ≠ 0 := by exact_mod_cast hm
  have h1 := trigger_mask_step hal s a0 a1 a2 a3 _ hrx
  rw [if_pos hne, hp2] at h1
  have h2 := trigger_values_step hal
    { s with
      rx := c0 :: c1 :: c2 :: c3 :: rest,
      trigger := ((a0 % 256 + 256 * (a1 % 256) : Nat) : Int),
      first_trigger_pin := (p : Int) } c0 c1 c2 c3 rest rfl
  simp only [if_pos hne, Int.toNat_ofNat, int_land_one_shift_val] at h2
  refine ⟨p,
    { s with
      rx := rest,
      trigger := ((a0 % 256 + 256 * (a1 % 256) : Nat) : Int),
      first_trigger_pin := (p : Int),
      trigger_values := ((c0 % 256 + 256 * (c1 % 256) : Nat) : Int),
      first_trigger_val := if (c0 % 256 + 256 * (c1 % 256)).testBit p = true then 1 else 0 },
    _, hp1, hp3, hp4, ?_, rfl, rfl, rfl, ?_, ?_, ?_⟩
  · simp only [sump_run, h1, Option.bind_some, Option.some_bind]
    exact h2
  · by_cases hr : s.readCount ≤ 0 <;> simp [sump_capture_and_send_samples, hr]
  · by_cases hr : s.readCount ≤ 0 <;> simp [sump_capture_and_send_samples, hr]
  · by_cases hb : (c0 % 256 + 256 * (c1 % 256)).testBit p = true <;>
      by_cases hr : s.readCount ≤ 0 <;> simp [sump_capture_and_send_samples, hr, hb]

/-- Witness of C8: mask `0x0004` then values `0x0004` gives pin 2, rising, and
`SUMP_ARM` starts the engine on the third channel pin with a positive edge. -/
theorem trigger_values_select_edge_witness :
    (sump_run id [.SUMP_TRIGGER_MASK_CH_A, .SUMP_TRIGGER_VALUES_CH_A, .SUMP_ARM]
        (Session.init demo_cfg demo_hw [0x04, 0, 0, 0, 0x04, 0, 0, 0])).map
      (fun s => (s.first_trigger_pin, s.first_trigger_val,
        s.started.map (fun c => (c.pin_trigger, c.trigger_edge))))
      = some (2, 1, [(25, gpio_int_type_t.GPIO_INTR_POSEDGE)])
    ∧ ∃ (p : Nat) (s2 s3 : Session),
      p < 16 ∧ (ucmd.mk 0x04 0 0 0).low16.testBit p = true
      ∧ (∀ j, j < p → (ucmd.mk 0x04 0 0 0).low16.testBit j = false)
      ∧ sump_run id [.SUMP_TRIGGER_MASK_CH_A, .SUMP_TRIGGER_VALUES_CH_A]
          (Session.init demo_cfg demo_hw [0x04, 0, 0, 0, 0x04, 0, 0, 0]) = some s2
      ∧ s2.first_trigger_pin = (p : Int)
      ∧ s2.first_trigger_val = (if (ucmd.mk 0x04 0 0 0).low16.testBit p = true then 1 else 0)
      ∧ sump_cmd_parser_step id .SUMP_ARM s2 = some s3
      ∧ s3.started
          = (Session.init demo_cfg demo_hw [0x04, 0, 0, 0, 0x04, 0, 0, 0]).started
            ++ [s3.la_cfg]
      ∧ s3.la_cfg.pin_trigger
          = (Session.init demo_cfg demo_hw
              [0x04, 0, 0, 0, 0x04, 0, 0, 0]).la_cfg.pin.getD p 0
      ∧ s3.la_cfg.trigger_edge
          = (if (ucmd.mk 0x04 0 0 0).low16.testBit p = true
              then gpio_int_type_t.GPIO_INTR_POSEDGE
              else gpio_int_type_t.GPIO_INTR_NEGEDGE) :=
  ⟨by decide,
    trigger_values_select_edge id
      (Session.init demo_cfg demo_hw [0x04, 0, 0, 0, 0x04, 0, 0, 0])
      0x04 0 0 0 0x04 0 0 0 [] rfl (by decide)⟩

/-- C9 (as amended): in every state whose stored trigger mask is zero, for
every 4-byte payload, `SUMP_TRIGGER_VALUES_CH_A` sets the trigger edge value
to 0 (falling) whatever it was before, and leaves the mask and the trigger pin
as they were. -/
theorem trigger_values_without_mask_resets_edge
    (hal : logic_analyzer_hw_param_t → logic_analyzer_hw_param_t)
    (s : Session) (b0 b1 b2 b3 : Nat) (rest : List Nat)
    (hrx : s.rx = b0 :: b1 :: b2 :: b3 :: rest) (ht : s.trigger = 0) :
    ∃ s1 : Session, sump_cmd_parser_step hal .SUMP_TRIGGER_VALUES_CH_A s = some s1
      ∧ s1.first_trigger_val = 0
      ∧ s1.first_trigger_pin = s.first_trigger_pin
      ∧ s1.trigger = s.trigger := by
  refine ⟨_, trigger_values_step hal s b0 b1 b2 b3 rest hrx, ?_, rfl, rfl⟩
  simp only [ht, ne_eq, not_true_eq_false, if_false]

/-- Witness of C9 (as amended): a state with no mask and a rising edge. -/
theorem trigger_values_without_mask_resets_edge_witness :
    ∃ s1 : Session,
      sump_cmd_parser_step id .SUMP_TRIGGER_VALUES_CH_A
          { Session.init demo_cfg demo_hw [0x04, 0, 0, 0] with first_trigger_val := 1 }
        = some s1
      ∧ s1.first_trigger_val = 0
      ∧ s1.first_trigger_pin
          = ({ Session.init demo_cfg demo_hw [0x04, 0, 0, 0] with
                first_trigger_val := 1 } : Session).first_trigger_pin
      ∧ s1.trigger
          = ({ Session.init demo_cfg demo_hw [0x04, 0, 0, 0] with
                first_trigger_val := 1 } : Session).trigger :=
  trigger_values_without_mask_resets_edge id
    { Session.init demo_cfg demo_hw [0x04, 0, 0, 0] with first_trigger_val := 1 }
    0x04 0 0 0 [] rfl rfl

/-- Counterexample to C9 as stated: after mask `0x0004`, values `0x0004` and
mask `0x0000` no trigger pin is set and the edge value is 1 (rising); the
values command that follows changes it to 0 (falling). -/
theorem trigger_values_without_mask_changes_edge :
    (sump_run id
        [.SUMP_TRIGGER_MASK_CH_A, .SUMP_TRIGGER_VALUES_CH_A, .SUMP_TRIGGER_MASK_CH_A]
        (Session.init demo_cfg demo_hw
          [0x04, 0, 0, 0, 0x04, 0, 0, 0, 0x00, 0, 0, 0, 0x04, 0, 0, 0])).map
      (fun s => (s.trigger, s.first_trigger_pin, s.first_trigger_val)) = some (0, -1, 1)
    ∧ (sump_run id
        [.SUMP_TRIGGER_MASK_CH_A, .SUMP_TRIGGER_VALUES_CH_A, .SUMP_TRIGGER_MASK_CH_A,
          .SUMP_TRIGGER_VALUES_CH_A]
        (Session.init demo_cfg demo_hw
          [0x04, 0, 0, 0, 0x04, 0, 0, 0, 0x00, 0, 0, 0, 0x04, 0, 0, 0])).map
      (fun s => (s.trigger, s.first_trigger_pin, s.first_trigger_val)) = some (0, -1, 0) := by
  decide

/-! ## Capture orchestrator: sample rate -/

theorem clamp_steps (q lo hi : Int) (h : lo ≤ hi) :
    (if (if q > hi then hi else q) < lo then lo else (if q > hi then hi else q))
      = max lo (min hi q) := by
  rcases le_total q hi with h1 | h1 <;> rcases le_total lo q with h2 | h2 <;>
    simp only [max_def, min_def] <;> split_ifs <;> omega

/-- C10: for every 4-byte `SUMP_SET_DIVIDER` payload, with `d` the low 24 bits
of the little-endian payload word, and every hardware description with
`0 < min_sample_rate ≤ max_sample_rate`, the command stores `d`, the divisor
`d + 1` is not zero (and does not wrap), and a following `SUMP_ARM` hands the
engine a configuration whose sample rate is `max_sample_rate / (d + 1)`
rounded down and clamped to `[min_sample_rate, max_sample_rate]`. -/
theorem set_divider_then_arm_clamps_rate
    (hal : logic_analyzer_hw_param_t → logic_analyzer_hw_param_t)
    (s : Session) (b0 b1 b2 b3 : Nat) (rest : List Nat)
    (hrx : s.rx = b0 :: b1 :: b2 :: b3 :: rest)
    (hmin : 0 < s.la_hw.min_sample_rate)
    (hle : s.la_hw.min_sample_rate ≤ s.la_hw.max_sample_rate) :
    ∃ s1 s2 : Session,
      sump_cmd_parser_step hal .SUMP_SET_DIVIDER s = some s1
      ∧ s1.divider = ((ucmd.mk b0 b1 b2 b3).low24 : Int)
      ∧ int32 (s1.divider + 1) = s1.divider + 1
      ∧ s1.divider + 1 ≠ 0
      ∧ sump_cmd_parser_step hal .SUMP_ARM s1 = some s2
      ∧ s2.started = s.started ++ [s2.la_cfg]
      ∧ s2.la_cfg.sample_rate
          = max s.la_hw.min_sample_rate
              (min s.la_hw.max_sample_rate
                (s.la_hw.max_sample_rate / (((ucmd.mk b0 b1 b2 b3).low24 : Int) + 1))) := by
  rw [low24_bytes]
  have hd : b0 % 256 + 256 * (b1 % 256) + 65536 * (b2 % 256) < 16777216 := by omega
  generalize hdv : b0 % 256 + 256 * (b1 % 256) + 65536 * (b2 % 256) = d at hd
  have h1 := set_divider_step hal s b0 b1 b2 b3 rest hrx
  rw [hdv] at h1
  have hw : int32 ((d : Int) + 1) = (d : Int) + 1 := by
    rw [int32_of_range] <;> omega
  have hdiv : Int.tdiv s.la_hw.max_sample_rate ((d : Int) + 1)
      = s.la_hw.max_sample_rate / ((d : Int) + 1) :=
    Int.tdiv_eq_ediv (by omega) (by omega)
  refine ⟨_, _, h1, rfl, hw, by simp only; omega, rfl, ?_, ?_⟩
  · by_cases hr : s.readCount ≤ 0 <;> simp [sump_capture_and_send_samples, hr]
  · have hc := clamp_steps (s.la_hw.max_sample_rate / ((d : Int) + 1)) _ _ hle
    by_cases hr : s.readCount ≤ 0 <;>
      simp only [sump_capture_and_send_samples, hr, if_true, if_false, hw, hdiv] <;>
      exact hc

/-- Witness of C10: divider 3 with rates between 5 kHz and 40 MHz gives
10 MHz. -/
theorem set_divider_then_arm_clamps_rate_witness :
    (sump_run id [.SUMP_SET_DIVIDER, .SUMP_ARM]
        (Session.init demo_cfg demo_hw [0x03, 0, 0, 0])).map
      (fun s => s.started.map (fun c => c.sample_rate)) = some [10000000]
    ∧ ∃ s1 s2 : Session,
      sump_cmd_parser_step id .SUMP_SET_DIVIDER
          (Session.init demo_cfg demo_hw [0x03, 0, 0, 0]) = some s1
      ∧ s1.divider = ((ucmd.mk 0x03 0 0 0).low24 : Int)
      ∧ int32 (s1.divider + 1) = s1.divider + 1
      ∧ s1.divider + 1 ≠ 0
      ∧ sump_cmd_parser_step id .SUMP_ARM s1 = some s2
      ∧ s2.started = (Session.init demo_cfg demo_hw [0x03, 0, 0, 0]).started ++ [s2.la_cfg]
      ∧ s2.la_cfg.sample_rate
          = max (Session.init demo_cfg demo_hw [0x03, 0, 0, 0]).la_hw.min_sample_rate
              (min (Session.init demo_cfg demo_hw [0x03, 0, 0, 0]).la_hw.max_sample_rate
                ((Session.init demo_cfg demo_hw [0x03, 0, 0, 0]).la_hw.max_sample_rate
                  / (((ucmd.mk 0x03 0 0 0).low24 : Int) + 1))) :=
  ⟨by decide,
    set_divider_then_arm_clamps_rate id (Session.init demo_cfg demo_hw [0x03, 0, 0, 0])
      0x03 0 0 0 [] rfl (by decide) (by decide)⟩

/-! ## Metadata responder -/

theorem uint8_byte_of_shift (x k : Nat) :
    uint8 (uint8 (x >>> k) &&& 0xFF) = x / 2 ^ k % 256 := by
  rw [show (0xFF : Nat) = 2 ^ 8 - 1 by decide, Nat.and_pow_two_sub_one_eq_mod,
    Nat.shiftRight_eq_div_pow]
  unfold uint8
  omega

theorem uint8_small (x : Nat) (h : x < 256) : uint8 x = x := by
  unfold uint8
  omega

/-- The bytes `sump_get_metadata` appends to the transport, in terms of the
hardware description `hw` that the engine returns. -/
theorem sump_get_metadata_tx
    (hal : logic_analyzer_hw_param_t → logic_analyzer_hw_param_t) (s : Session)
    (hw : logic_analyzer_hw_param_t)
    (hhw : hal { s.la_hw with
      current_channels := s.la_cfg.number_channels,
      current_psram := s.la_cfg.samples_to_psram } = hw) :
    (sump_get_metadata hal s).tx
      = s.tx ++ ([0x01, 0x45, 0x53, 0x50, 0x33, 0x32, 0x00]
          ++ [0x02, 0x30, 0x2e, 0x30, 0x30, 0x00]
          ++ 0x21 :: be32 (if hw.current_channels > 4
              then uint32 (hw.max_sample_cnt * Int.tdiv hw.current_channels 8)
              else uint32 hw.max_sample_cnt)
          ++ 0x23 :: be32 (uint32 hw.max_sample_rate)
          ++ [0x40,
              uint8 (if hw.current_channels > 4
                then uint8 (uint32 hw.current_channels) &&& 0xff else 8),
              0x41, 0x02, 0x00]) := by
  simp only [sump_get_metadata, sump_writeByte, sump_write_data, hhw, uint8_byte_of_shift,
    be32, List.append_assoc, List.cons_append, List.nil_append, pow_zero, Nat.div_one,
    uint8_small 0x01 (by decide), uint8_small 0x02 (by decide), uint8_small 0x21 (by decide),
    uint8_small 0x23 (by decide), uint8_small 0x40 (by decide), uint8_small 0x41 (by decide),
    uint8_small 0x00 (by decide)]

/-- Function `sump_get_metadata` changes the hardware description and the
written bytes and nothing else. -/
theorem sump_get_metadata_frame
    (hal : logic_analyzer_hw_param_t → logic_analyzer_hw_param_t) (s : Session) :
    sump_get_metadata hal s
      = { s with
          la_hw := hal { s.la_hw with
            current_channels := s.la_cfg.number_channels,
            current_psram := s.la_cfg.samples_to_psram },
          tx := (sump_get_metadata hal s).tx } := by
  simp only [sump_get_metadata, sump_writeByte, sump_write_data]

/-- C11: for every hardware description `hw` returned by the engine whose
channel width is 4, 8 or 16, `SUMP_GET_METADATA` appends exactly these 28 bytes
to the transport: `01 'E' 'S' 'P' '3' '2' 00`, `02 '0' '.' '0' '0' 00`, `21`
and the four big-endian bytes of the 32-bit capture size, `23` and the four
big-endian bytes of the 32-bit `max_sample_rate`, `40` and the probe count,
`41 02`, `00`; the capture size is `max_sample_cnt * (w / 8)` and the probe
count `w` for a width `w > 4`, and they are `max_sample_cnt` and 8 for width
4. No payload is read. -/
theorem get_metadata_writes_28_bytes
    (hal : logic_analyzer_hw_param_t → logic_analyzer_hw_param_t) (s : Session)
    (hw : logic_analyzer_hw_param_t)
    (hhw : hal { s.la_hw with
      current_channels := s.la_cfg.number_channels,
      current_psram := s.la_cfg.samples_to_psram } = hw)
    (hc : hw.current_channels = 4 ∨ hw.current_channels = 8 ∨ hw.current_channels = 16) :
    ∃ s1 : Session, sump_cmd_parser_step hal .SUMP_GET_METADATA s = some s1
      ∧ s1.rx = s.rx
      ∧ s1.tx
        = s.tx ++ ([0x01, 0x45, 0x53, 0x50, 0x33, 0x32, 0x00]
            ++ [0x02, 0x30, 0x2e, 0x30, 0x30, 0x00]
            ++ 0x21 :: be32 (uint32 (if hw.current_channels > 4
                then hw.max_sample_cnt * (hw.current_channels / 8)
                else hw.max_sample_cnt))
            ++ 0x23 :: be32 (uint32 hw.max_sample_rate)
            ++ [0x40, (if hw.current_channels > 4 then hw.current_channels.toNat else 8),
                0x41, 0x02, 0x00])
      ∧ ([0x01, 0x45, 0x53, 0x50, 0x33, 0x32, 0x00]
            ++ [0x02, 0x30, 0x2e, 0x30, 0x30, 0x00]
            ++ 0x21 :: be32 (uint32 (if hw.current_channels > 4
                then hw.max_sample_cnt * (hw.current_channels / 8)
                else hw.max_sample_cnt))
            ++ 0x23 :: be32 (uint32 hw.max_sample_rate)
            ++ [0x40, (if hw.current_channels > 4 then hw.current_channels.toNat else 8),
                0x41, 0x02, 0x00]).length = 28 := by
  refine ⟨sump_get_metadata hal s, rfl, ?_, ?_, by simp [be32]⟩
  · rw [sump_get_metadata_frame]
  rw [sump_get_metadata_tx hal s hw hhw]
  have t8 : Int.tdiv 8 8 = 1 := by decide
  have t16 : Int.tdiv 16 8 = 2 := by decide
  have d8 : (8 : Int) / 8 = 1 := by decide
  have d16 : (16 : Int) / 8 = 2 := by decide
  have p4 : uint8 8 = 8 := by decide
  have p8 : uint8 (uint8 (uint32 8) &&& 0xff) = (8 : Int).toNat := by decide
  have p16 : uint8 (uint8 (uint32 16) &&& 0xff) = (16 : Int).toNat := by decide
  rcases hc with h | h | h
  · rw [h, if_neg (by decide), if_neg (by decide), if_neg (by decide), if_neg (by decide), p4]
  · rw [h, if_pos (by decide), if_pos (by decide), if_pos (by decide), if_pos (by decide),
      t8, d8, p8]
  · rw [h, if_pos (by decide), if_pos (by decide), if_pos (by decide), if_pos (by decide),
      t16, d16, p16]

/-- Witness of C11: 16 channels, 60000 samples at most and 40 MHz give the
capture size `00 01 D4 C0` (120000), the speed `02 62 5A 00` and 16 probes. -/
theorem get_metadata_writes_28_bytes_witness :
    (sump_cmd_parser_step id .SUMP_GET_METADATA (Session.init demo_cfg demo_hw [])).map
        Session.tx
      = some [0x01, 0x45, 0x53, 0x50, 0x33, 0x32, 0x00, 0x02, 0x30, 0x2e, 0x30, 0x30, 0x00,
          0x21, 0x00, 0x01, 0xD4, 0xC0, 0x23, 0x02, 0x62, 0x5A, 0x00, 0x40, 0x10,
          0x41, 0x02, 0x00]
    ∧ ∃ s1 : Session,
      sump_cmd_parser_step id .SUMP_GET_METADATA (Session.init demo_cfg demo_hw []) = some s1
      ∧ s1.rx = (Session.init demo_cfg demo_hw []).rx
      ∧ s1.tx
        = (Session.init demo_cfg demo_hw []).tx ++ ([0x01, 0x45, 0x53, 0x50, 0x33, 0x32, 0x00]
            ++ [0x02, 0x30, 0x2e, 0x30, 0x30, 0x00]
            ++ 0x21 :: be32 (uint32 (if demo_hw.current_channels > 4
                then demo_hw.max_sample_cnt * (demo_hw.current_channels / 8)
                else demo_hw.max_sample_cnt))
            ++ 0x23 :: be32 (uint32 demo_hw.max_sample_rate)
            ++ [0x40,
                (if demo_hw.current_channels > 4 then demo_hw.current_channels.toNat else 8),
                0x41, 0x02, 0x00])
      ∧ ([0x01, 0x45, 0x53, 0x50, 0x33, 0x32, 0x00]
            ++ [0x02, 0x30, 0x2e, 0x30, 0x30, 0x00]
            ++ 0x21 :: be32 (uint32 (if demo_hw.current_channels > 4
                then demo_hw.max_sample_cnt * (demo_hw.current_channels / 8)
                else demo_hw.max_sample_cnt))
            ++ 0x23 :: be32 (uint32 demo_hw.max_sample_rate)
            ++ [0x40,
                (if demo_hw.current_channels > 4 then demo_hw.current_channels.toNat else 8),
                0x41, 0x02, 0x00]).length = 28 :=
  ⟨by decide,
    get_metadata_writes_28_bytes id (Session.init demo_cfg demo_hw []) demo_hw rfl
      (by decide)⟩

/-! ## Sample count commands -/

theorem u_cmd32_lt (c : ucmd) : c.u_cmd32 < 2 ^ 32 := by
  simp only [ucmd.u_cmd32]
  omega

/-- The state after `SUMP_SET_BIG_READ_CNT` with the payload `b0 b1 b2 b3`. -/
theorem set_big_read_cnt_step
    (hal : logic_analyzer_hw_param_t → logic_analyzer_hw_param_t)
    (s : Session) (b0 b1 b2 b3 : Nat) (rest : List Nat)
    (hrx : s.rx = b0 :: b1 :: b2 :: b3 :: rest) :
    sump_cmd_parser_step hal .SUMP_SET_BIG_READ_CNT s
      = some { s with
          rx := rest,
          readCount := int32 (uint32 (((ucmd.mk b0 b1 b2 b3).u_cmd32 : Int) + 1)) } := by
  simp only [sump_cmd_parser_step, sump_getCmd4, hrx, Option.map_some']

/-- The 32-bit sum `V + 1` stored into the signed `readCount`, without wrap. -/
theorem int32_uint32_succ_small (v : Nat) (hv : v ≤ 0x7FFFFFFE) :
    int32 (uint32 ((v : Int) + 1)) = (v : Int) + 1 := by
  unfold int32 uint32
  omega

/-- The 32-bit sum `V + 1` stored into the signed `readCount`, with wrap. -/
theorem int32_uint32_succ_large (v : Nat) (hv : 0x7FFFFFFF ≤ v) (hlt : v < 2 ^ 32) :
    int32 (uint32 ((v : Int) + 1)) = (v : Int) + 1 - 2 ^ 32 := by
  unfold int32 uint32
  omega

/-- C12 (as amended): for every 4-byte `SUMP_SET_BIG_READ_CNT` payload, with `V`
the unsigned 32-bit little-endian value of the payload, the sample count after
the command is `V + 1`, and so at least 1, when `V ≤ 0x7FFFFFFE`; for a larger
`V` the 32-bit result wraps to `V + 1 - 2 ^ 32`, which is at most 0. -/
theorem set_big_read_cnt_wraps
    (hal : logic_analyzer_hw_param_t → logic_analyzer_hw_param_t)
    (s : Session) (b0 b1 b2 b3 : Nat) (rest : List Nat)
    (hrx : s.rx = b0 :: b1 :: b2 :: b3 :: rest) :
    ∃ s1 : Session, sump_cmd_parser_step hal .SUMP_SET_BIG_READ_CNT s = some s1
      ∧ ((ucmd.mk b0 b1 b2 b3).u_cmd32 ≤ 0x7FFFFFFE →
          s1.readCount = ((ucmd.mk b0 b1 b2 b3).u_cmd32 : Int) + 1 ∧ 1 ≤ s1.readCount)
      ∧ (0x7FFFFFFF ≤ (ucmd.mk b0 b1 b2 b3).u_cmd32 →
          s1.readCount = ((ucmd.mk b0 b1 b2 b3).u_cmd32 : Int) + 1 - 2 ^ 32
            ∧ s1.readCount ≤ 0) := by
  have hlt := u_cmd32_lt (ucmd.mk b0 b1 b2 b3)
  refine ⟨_, set_big_read_cnt_step hal s b0 b1 b2 b3 rest hrx, ?_, ?_⟩
  · intro h
    simp only [int32_uint32_succ_small _ h]
    exact ⟨trivial, by omega⟩
  · intro h
    simp only [int32_uint32_succ_large _ h hlt]
    exact ⟨trivial, by omega⟩

/-- Witness of C12 (as amended): the payload `E7 03 00 00` (999) gives the
sample count 1000. -/
theorem set_big_read_cnt_wraps_witness :
    (sump_cmd_parser_step id .SUMP_SET_BIG_READ_CNT
        (Session.init demo_cfg demo_hw [0xE7, 0x03, 0x00, 0x00])).map Session.readCount
      = some 1000
    ∧ ∃ s1 : Session,
      sump_cmd_parser_step id .SUMP_SET_BIG_READ_CNT
          (Session.init demo_cfg demo_hw [0xE7, 0x03, 0x00, 0x00]) = some s1
      ∧ ((ucmd.mk 0xE7 0x03 0x00 0x00).u_cmd32 ≤ 0x7FFFFFFE →
          s1.readCount = ((ucmd.mk 0xE7 0x03 0x00 0x00).u_cmd32 : Int) + 1
            ∧ 1 ≤ s1.readCount)
      ∧ (0x7FFFFFFF ≤ (ucmd.mk 0xE7 0x03 0x00 0x00).u_cmd32 →
          s1.readCount = ((ucmd.mk 0xE7 0x03 0x00 0x00).u_cmd32 : Int) + 1 - 2 ^ 32
            ∧ s1.readCount ≤ 0) :=
  ⟨by decide,
    set_big_read_cnt_wraps id (Session.init demo_cfg demo_hw [0xE7, 0x03, 0x00, 0x00])
      0xE7 0x03 0x00 0x00 [] rfl⟩

/-- Counterexample to C12 as stated: the payload `FF FF FF 7F`
(`V = 0x7FFFFFFF`) leaves the sample count at `-2 ^ 31` and the payload
`FF FF FF FF` (`V = 0xFFFFFFFF`) leaves it at 0; neither is `V + 1` nor at
least 1. -/
theorem set_big_read_cnt_not_positive :
    (sump_cmd_parser_step id .SUMP_SET_BIG_READ_CNT
        (Session.init demo_cfg demo_hw [0xFF, 0xFF, 0xFF, 0x7F])).map Session.readCount
      = some (-2147483648)
    ∧ (sump_cmd_parser_step id .SUMP_SET_BIG_READ_CNT
        (Session.init demo_cfg demo_hw [0xFF, 0xFF, 0xFF, 0xFF])).map Session.readCount
      = some 0
    ∧ (ucmd.mk 0xFF 0xFF 0xFF 0x7F).u_cmd32 = 0x7FFFFFFF
    ∧ (ucmd.mk 0xFF 0xFF 0xFF 0xFF).u_cmd32 = 0xFFFFFFFF := by
  decide

theorem u_cmd16_0_and (c : ucmd) : c.u_cmd16_0 &&& 0xffff = c.u_cmd16_0 := by
  rw [show (0xffff : Nat) = 2 ^ 16 - 1 by decide, Nat.and_pow_two_sub_one_eq_mod]
  simp only [ucmd.u_cmd16_0]
  omega

theorem u_cmd16_1_and (c : ucmd) : c.u_cmd16_1 &&& 0xffff = c.u_cmd16_1 := by
  rw [show (0xffff : Nat) = 2 ^ 16 - 1 by decide, Nat.and_pow_two_sub_one_eq_mod]
  simp only [ucmd.u_cmd16_1]
  omega

/-- C13: for every 4-byte `SUMP_SET_READ_DELAY_COUNT` payload `b0 b1 b2 b3` the
sample count after the command is `(b0 + 256 * b1) + 1` and the delay count is
`(b2 + 256 * b3) + 1`, both in `1..65536`, the payload is consumed and no other
field of the session changes. -/
theorem set_read_delay_count_halves
    (hal : logic_analyzer_hw_param_t → logic_analyzer_hw_param_t)
    (s : Session) (b0 b1 b2 b3 : Nat) (rest : List Nat)
    (hrx : s.rx = b0 :: b1 :: b2 :: b3 :: rest)
    (h0 : b0 < 256) (h1 : b1 < 256) (h2 : b2 < 256) (h3 : b3 < 256) :
    sump_cmd_parser_step hal .SUMP_SET_READ_DELAY_COUNT s
        = some { s with
            rx := rest,
            readCount := ((b0 + 256 * b1 : Nat) : Int) + 1,
            delayCount := ((b2 + 256 * b3 : Nat) : Int) + 1 }
      ∧ 1 ≤ ((b0 + 256 * b1 : Nat) : Int) + 1 ∧ ((b0 + 256 * b1 : Nat) : Int) + 1 ≤ 65536
      ∧ 1 ≤ ((b2 + 256 * b3 : Nat) : Int) + 1
      ∧ ((b2 + 256 * b3 : Nat) : Int) + 1 ≤ 65536 := by
  refine ⟨?_, by omega, by omega, by omega, by omega⟩
  have e0 : (ucmd.mk b0 b1 b2 b3).u_cmd16_0 &&& 0xffff = b0 + 256 * b1 := by
    rw [u_cmd16_0_and]
    simp only [ucmd.u_cmd16_0, Nat.mod_eq_of_lt h0, Nat.mod_eq_of_lt h1]
  have e1 : (ucmd.mk b0 b1 b2 b3).u_cmd16_1 &&& 0xffff = b2 + 256 * b3 := by
    rw [u_cmd16_1_and]
    simp only [ucmd.u_cmd16_1, Nat.mod_eq_of_lt h2, Nat.mod_eq_of_lt h3]
  simp only [sump_cmd_parser_step, sump_getCmd4, hrx, Option.map_some', e0, e1]

/-- Witness of C13: the payload `E7 03 09 00` gives the sample count 1000 and
the delay count 10. -/
theorem set_read_delay_count_halves_witness :
    (sump_cmd_parser_step id .SUMP_SET_READ_DELAY_COUNT
        (Session.init demo_cfg demo_hw [0xE7, 0x03, 0x09, 0x00])).map
      (fun s => (s.readCount, s.delayCount)) = some (1000, 10) := by
  have h := (set_read_delay_count_halves id
    (Session.init demo_cfg demo_hw [0xE7, 0x03, 0x09, 0x00]) 0xE7 0x03 0x09 0x00 [] rfl
    (by decide) (by decide) (by decide) (by decide)).1
  rw [h]
  decide

/-- C14: in every state `SUMP_ARM` sets the sample count to `min_sample_cnt`
when it was at most 0 and leaves it unchanged otherwise, and starts the engine
with a configuration whose `number_of_samples` is the resulting sample count;
so when `min_sample_cnt` is at least 1 the engine is started with at least one
sample. -/
theorem arm_resolves_sample_count
    (hal : logic_analyzer_hw_param_t → logic_analyzer_hw_param_t) (s : Session) :
    ∃ s1 : Session, sump_cmd_parser_step hal .SUMP_ARM s = some s1
      ∧ s1.readCount = (if s.readCount ≤ 0 then s.la_hw.min_sample_cnt else s.readCount)
      ∧ s1.started = s.started ++ [s1.la_cfg]
      ∧ s1.la_cfg.number_of_samples = s1.readCount
      ∧ (1 ≤ s.la_hw.min_sample_cnt → 1 ≤ s1.la_cfg.number_of_samples) := by
  refine ⟨_, rfl, ?_, ?_, ?_, ?_⟩
  · by_cases hr : s.readCount ≤ 0
    · by_cases hm : s.la_hw.min_sample_cnt ≤ 0 <;>
        simp [sump_capture_and_send_samples, hr, hm]
    · simp [sump_capture_and_send_samples, hr]
  · by_cases hr : s.readCount ≤ 0 <;> simp [sump_capture_and_send_samples, hr]
  · rfl
  · intro hmin
    by_cases hr : s.readCount ≤ 0
    · have hm : ¬ s.la_hw.min_sample_cnt ≤ 0 := by omega
      simp [sump_capture_and_send_samples, hr, hm]
      omega
    · simp [sump_capture_and_send_samples, hr]
      omega

/-- Witness of C14: after `SUMP_SET_BIG_READ_CNT` with `FF FF FF FF` the sample
count is 0, and `SUMP_ARM` starts the engine with `min_sample_cnt = 100`
samples. -/
theorem arm_resolves_sample_count_witness :
    (sump_run id [.SUMP_SET_BIG_READ_CNT, .SUMP_ARM]
        (Session.init demo_cfg demo_hw [0xFF, 0xFF, 0xFF, 0xFF])).map
      (fun s => (s.readCount, s.started.map (fun c => c.number_of_samples)))
      = some (100, [100])
    ∧ ∃ s1 : Session,
      sump_cmd_parser_step id .SUMP_ARM (Session.init demo_cfg demo_hw []) = some s1
      ∧ s1.readCount
          = (if (Session.init demo_cfg demo_hw []).readCount ≤ 0
              then (Session.init demo_cfg demo_hw []).la_hw.min_sample_cnt
              else (Session.init demo_cfg demo_hw []).readCount)
      ∧ s1.started = (Session.init demo_cfg demo_hw []).started ++ [s1.la_cfg]
      ∧ s1.la_cfg.number_of_samples = s1.readCount
      ∧ (1 ≤ (Session.init demo_cfg demo_hw []).la_hw.min_sample_cnt →
          1 ≤ s1.la_cfg.number_of_samples) :=
  ⟨by decide, arm_resolves_sample_count id (Session.init demo_cfg demo_hw [])⟩

/-! ## Command dispatcher: payload reads and commands without effect -/

theorem sump_getCmd4_some (s : Session) (b0 b1 b2 b3 : Nat) (rest : List Nat)
    (hrx : s.rx = b0 :: b1 :: b2 :: b3 :: rest) :
    sump_getCmd4 s = some (⟨b0, b1, b2, b3⟩, { s with rx := rest }) := by
  simp only [sump_getCmd4, hrx]

theorem sump_getCmd4_none (s : Session) (h : s.rx.length < 4) : sump_getCmd4 s = none := by
  unfold sump_getCmd4
  rcases hrx : s.rx with _ | ⟨a, _ | ⟨b, _ | ⟨c, _ | ⟨d, r⟩⟩⟩⟩
  · rfl
  · rfl
  · rfl
  · rfl
  · rw [hrx] at h
    simp only [List.length_cons] at h
    omega

/-- The commands without payload leave the bytes to be read untouched. -/
theorem step_without_payload_rx
    (hal : logic_analyzer_hw_param_t → logic_analyzer_hw_param_t)
    (cmd : SumpCmd) (s : Session) (hp : has_payload cmd = false) :
    ∃ s1 : Session, sump_cmd_parser_step hal cmd s = some s1 ∧ s1.rx = s.rx := by
  cases cmd
  case SUMP_RESET => exact ⟨s, rfl, rfl⟩
  case SUMP_QUERY => exact ⟨_, rfl, rfl⟩
  case SUMP_ARM =>
    refine ⟨_, rfl, ?_⟩
    by_cases hr : s.readCount ≤ 0 <;> simp [sump_capture_and_send_samples, hr]
  case SUMP_GET_METADATA =>
    refine ⟨_, rfl, ?_⟩
    rw [sump_get_metadata_frame]
  case SUMP_SELF_TEST => exact ⟨s, rfl, rfl⟩
  case OTHER => exact ⟨s, rfl, rfl⟩
  all_goals exact absurd hp (by decide)

/-- The commands with payload consume exactly the next four bytes. -/
theorem step_with_payload_rx
    (hal : logic_analyzer_hw_param_t → logic_analyzer_hw_param_t)
    (cmd : SumpCmd) (s : Session) (hp : has_payload cmd = true)
    (b0 b1 b2 b3 : Nat) (rest : List Nat) (hrx : s.rx = b0 :: b1 :: b2 :: b3 :: rest) :
    ∃ s1 : Session, sump_cmd_parser_step hal cmd s = some s1 ∧ s1.rx = rest := by
  have hg := sump_getCmd4_some s b0 b1 b2 b3 rest hrx
  cases cmd
  case SUMP_RESET => exact absurd hp (by decide)
  case SUMP_QUERY => exact absurd hp (by decide)
  case SUMP_ARM => exact absurd hp (by decide)
  case SUMP_GET_METADATA => exact absurd hp (by decide)
  case SUMP_SELF_TEST => exact absurd hp (by decide)
  case OTHER => exact absurd hp (by decide)
  all_goals
    simp only [sump_cmd_parser_step, hg, Option.map_some']
    exact ⟨_, rfl, rfl⟩

/-- The commands with payload do not return when fewer than four bytes come. -/
theorem step_with_payload_blocks
    (hal : logic_analyzer_hw_param_t → logic_analyzer_hw_param_t)
    (cmd : SumpCmd) (s : Session) (hp : has_payload cmd = true) (hlen : s.rx.length < 4) :
    sump_cmd_parser_step hal cmd s = none := by
  have hg := sump_getCmd4_none s hlen
  cases cmd
  case SUMP_RESET => exact absurd hp (by decide)
  case SUMP_QUERY => exact absurd hp (by decide)
  case SUMP_ARM => exact absurd hp (by decide)
  case SUMP_GET_METADATA => exact absurd hp (by decide)
  case SUMP_SELF_TEST => exact absurd hp (by decide)
  case OTHER => exact absurd hp (by decide)
  all_goals
    simp only [sump_cmd_parser_step, hg, Option.map_none']

/-- C15: for every opcode and every state, `sump_cmd_parser` reads exactly four
payload bytes when the opcode is a trigger mask, values or configuration
command of a channel A to D, `SUMP_SET_DIVIDER`, `SUMP_SET_READ_DELAY_COUNT`,
`SUMP_SET_BIG_READ_CNT` or `SUMP_SET_FLAGS` (it returns with those four bytes
removed from the input, and does not return while fewer than four are there),
and reads no byte for every other opcode. -/
theorem sump_cmd_reads_four_bytes_or_none
    (hal : logic_analyzer_hw_param_t → logic_analyzer_hw_param_t)
    (cmd : SumpCmd) (s : Session) :
    (has_payload cmd = true →
        (∀ (b0 b1 b2 b3 : Nat) (rest : List Nat), s.rx = b0 :: b1 :: b2 :: b3 :: rest →
          ∃ s1 : Session, sump_cmd_parser_step hal cmd s = some s1 ∧ s1.rx = rest)
        ∧ (s.rx.length < 4 → sump_cmd_parser_step hal cmd s = none))
    ∧ (has_payload cmd = false →
        ∃ s1 : Session, sump_cmd_parser_step hal cmd s = some s1 ∧ s1.rx = s.rx)
    ∧ (has_payload cmd = true ↔
        cmd ∈ [SumpCmd.SUMP_TRIGGER_MASK_CH_A, .SUMP_TRIGGER_MASK_CH_B,
          .SUMP_TRIGGER_MASK_CH_C, .SUMP_TRIGGER_MASK_CH_D,
          .SUMP_TRIGGER_VALUES_CH_A, .SUMP_TRIGGER_VALUES_CH_B,
          .SUMP_TRIGGER_VALUES_CH_C, .SUMP_TRIGGER_VALUES_CH_D,
          .SUMP_TRIGGER_CONFIG_CH_A, .SUMP_TRIGGER_CONFIG_CH_B,
          .SUMP_TRIGGER_CONFIG_CH_C, .SUMP_TRIGGER_CONFIG_CH_D,
          .SUMP_SET_DIVIDER, .SUMP_SET_READ_DELAY_COUNT,
          .SUMP_SET_BIG_READ_CNT, .SUMP_SET_FLAGS]) := by
  refine ⟨fun hp => ⟨fun b0 b1 b2 b3 rest hrx =>
      step_with_payload_rx hal cmd s hp b0 b1 b2 b3 rest hrx,
      fun hlen => step_with_payload_blocks hal cmd s hp hlen⟩,
    fun hp => step_without_payload_rx hal cmd s hp, ?_⟩
  cases cmd <;> decide

/-- Witness of C15: `SUMP_SET_FLAGS` takes four of five pending bytes, and
`SUMP_QUERY` takes none. -/
theorem sump_cmd_reads_four_bytes_or_none_witness :
    (sump_cmd_parser_step id .SUMP_SET_FLAGS
        (Session.init demo_cfg demo_hw [1, 2, 3, 4, 5])).map Session.rx = some [5]
    ∧ (sump_cmd_parser_step id .SUMP_QUERY
        (Session.init demo_cfg demo_hw [1, 2, 3, 4, 5])).map Session.rx
      = some [1, 2, 3, 4, 5]
    ∧ ∃ s1 : Session,
      sump_cmd_parser_step id .SUMP_SET_FLAGS (Session.init demo_cfg demo_hw [1, 2, 3, 4, 5])
        = some s1 ∧ s1.rx = [5] :=
  ⟨by decide, by decide,
    (sump_cmd_reads_four_bytes_or_none id .SUMP_SET_FLAGS
      (Session.init demo_cfg demo_hw [1, 2, 3, 4, 5])).1 rfl |>.1 1 2 3 4 [5] rfl⟩

/-- C16: for every state and payload, `SUMP_RESET`, `SUMP_SELF_TEST`,
`SUMP_SET_FLAGS`, the trigger configuration commands of the channels A to D,
the trigger mask and values commands of the channels B, C and D, and every
byte that is not an opcode write nothing to the transport and change no field
of the session: the state after the command is the state before it, with the
four payload bytes removed from the input when the command has a payload. -/
theorem no_effect_commands_keep_session
    (hal : logic_analyzer_hw_param_t → logic_analyzer_hw_param_t)
    (cmd : SumpCmd) (s : Session) (hne : is_no_effect cmd = true) :
    (has_payload cmd = false → sump_cmd_parser_step hal cmd s = some s)
    ∧ (has_payload cmd = true →
        ∀ (b0 b1 b2 b3 : Nat) (rest : List Nat), s.rx = b0 :: b1 :: b2 :: b3 :: rest →
          sump_cmd_parser_step hal cmd s = some { s with rx := rest })
    ∧ cmd ∈ [SumpCmd.SUMP_RESET, .SUMP_SELF_TEST, .SUMP_SET_FLAGS,
        .SUMP_TRIGGER_CONFIG_CH_A, .SUMP_TRIGGER_CONFIG_CH_B,
        .SUMP_TRIGGER_CONFIG_CH_C, .SUMP_TRIGGER_CONFIG_CH_D,
        .SUMP_TRIGGER_MASK_CH_B, .SUMP_TRIGGER_MASK_CH_C, .SUMP_TRIGGER_MASK_CH_D,
        .SUMP_TRIGGER_VALUES_CH_B, .SUMP_TRIGGER_VALUES_CH_C, .SUMP_TRIGGER_VALUES_CH_D,
        .OTHER] := by
  refine ⟨fun hp => ?_, fun hp b0 b1 b2 b3 rest hrx => ?_, ?_⟩
  · cases cmd
    case SUMP_RESET => rfl
    case SUMP_SELF_TEST => rfl
    case OTHER => rfl
    all_goals first | exact absurd hp (by decide) | exact absurd hne (by decide)
  · have hg := sump_getCmd4_some s b0 b1 b2 b3 rest hrx
    cases cmd
    case SUMP_RESET => exact absurd hp (by decide)
    case SUMP_SELF_TEST => exact absurd hp (by decide)
    case OTHER => exact absurd hp (by decide)
    all_goals first
      | exact absurd hne (by decide)
      | simp only [sump_cmd_parser_step, hg, Option.map_some']
  · cases cmd <;> first | exact absurd hne (by decide) | decide

/-- Witness of C16: `SUMP_TRIGGER_MASK_CH_B` with the payload `FF FF 00 00`
after a trigger on pin 2 was set up changes nothing but the input. -/
theorem no_effect_commands_keep_session_witness :
    (sump_run id [.SUMP_TRIGGER_MASK_CH_A, .SUMP_TRIGGER_MASK_CH_B]
        (Session.init demo_cfg demo_hw [0x04, 0, 0, 0, 0xFF, 0xFF, 0, 0]))
      = sump_run id [.SUMP_TRIGGER_MASK_CH_A]
          (Session.init demo_cfg demo_hw [0x04, 0, 0, 0])
    ∧ sump_cmd_parser_step id .SUMP_TRIGGER_MASK_CH_B
        (Session.init demo_cfg demo_hw [0xFF, 0xFF, 0, 0])
      = some { Session.init demo_cfg demo_hw [0xFF, 0xFF, 0, 0] with rx := [] } :=
  ⟨by decide,
    (no_effect_commands_keep_session id .SUMP_TRIGGER_MASK_CH_B
      (Session.init demo_cfg demo_hw [0xFF, 0xFF, 0, 0]) rfl).2.1 rfl 0xFF 0xFF 0 0 [] rfl⟩

/-- C17: in every state `SUMP_QUERY` writes exactly the four bytes
`31 41 4C 53` (ASCII `1ALS`) to the transport, reads nothing and changes no
other field of the session. -/
theorem query_writes_1ALS
    (hal : logic_analyzer_hw_param_t → logic_analyzer_hw_param_t) (s : Session) :
    sump_cmd_parser_step hal .SUMP_QUERY s
      = some { s with tx := s.tx ++ [0x31, 0x41, 0x4C, 0x53] } :=
  rfl

/-! ## The sample stream encoder: deliveries that do not match the request -/

/-- C18, the code at two failing inputs: for width 4, `rc = 4`, `cnt = 2` and
the one-byte buffer `[0xAB]` both reads are at index `-1`; for width 4,
`rc = cnt = 3` and the two-byte buffer `[0xAB, 0xCD]` the third read is at
index `-1`. Index `-1` is before the buffer. -/
theorem sump_la_cb_width_4_reads_outside_buffer :
    reads (sump_la_cb 4 (some (bufMem [0xAB] 0xEE)) 2 4) = [-1, -1]
    ∧ reads (sump_la_cb 3 (some (bufMem [0xAB, 0xCD] 0xEE)) 3 4) = [0, 0, -1]
    ∧ wire (sump_la_cb 3 (some (bufMem [0xAB, 0xCD] 0xEE)) 3 4) = [0x0A, 0x0B, 0x0E] := by
  decide

/-- The 8-channel branch for a delivery of `n + k + 1` samples against a
request of `n`. -/
theorem sump_la_cb8_over (mem : Mem) (k n : Nat) (h : n + k + 1 < 2 ^ 31) :
    sump_la_cb (n : Int) (some mem) ((n + k + 1 : Nat) : Int) 8
      = (List.range n).reverse.map
          (fun (j : Nat) => (⟨some ((k : Int) + 1 + j), [mem ((k : Int) + 1 + j)]⟩ : Wr)) := by
  have hd : int32 ((n : Int) - ((n + k + 1 : Nat) : Int)) = -((k : Int) + 1) := by
    rw [int32_of_range] <;> push_cast <;> omega
  simp only [sump_la_cb, hd, if_true, Int.toNat_ofNat]
  have hp : (n : Int) - 1 - -((k : Int) + 1) = ((k : Int) + 1) + n - 1 := by omega
  rw [hp, la_loop8_data mem _ ((k : Int) + 1) n 0 (by push_cast; omega)]

/-- The 16-channel branch for a delivery of `n + k + 1` samples against a
request of `n`. -/
theorem sump_la_cb16_over (mem : Mem) (k n : Nat) (h : n + k + 1 < 2 ^ 31) :
    sump_la_cb (n : Int) (some mem) ((n + k + 1 : Nat) : Int) 16
      = (List.range n).reverse.map
          (fun (j : Nat) => (⟨some ((k : Int) + 1 + j),
            [mem (2 * ((k : Int) + 1 + j)), mem (2 * ((k : Int) + 1 + j) + 1)]⟩ : Wr)) := by
  have hd : int32 ((n : Int) - ((n + k + 1 : Nat) : Int)) = -((k : Int) + 1) := by
    rw [int32_of_range] <;> push_cast <;> omega
  simp only [sump_la_cb, hd, Int.toNat_ofNat]
  rw [if_neg (by decide)]
  simp only [if_true]
  have hp : (n : Int) - 1 - -((k : Int) + 1) = ((k : Int) + 1) + n - 1 := by omega
  rw [hp, la_loop16_data mem _ ((k : Int) + 1) n 0 (by push_cast; omega)]

/-- C19: for channel widths 8 and 16 and a delivery of `cnt > rc ≥ 0` samples,
`sump_la_cb` writes no zero sample and writes exactly the `rc` elements with
the indices `cnt - 1, cnt - 2, ..., cnt - rc` in that order (the newest `rc`
samples), every one of which lies in the buffer of `cnt` elements. -/
theorem sump_la_cb_width_8_16_over_delivery (mem : Mem) (rc cnt : Int)
    (h0 : 0 ≤ rc) (h1 : rc < cnt) (h2 : cnt < 2 ^ 31) :
    (sump_la_cb rc (some mem) cnt 8
        = (List.range rc.toNat).reverse.map
            (fun (j : Nat) => (⟨some (cnt - rc + j), [mem (cnt - rc + j)]⟩ : Wr)))
    ∧ (sump_la_cb rc (some mem) cnt 16
        = (List.range rc.toNat).reverse.map
            (fun (j : Nat) => (⟨some (cnt - rc + j),
              [mem (2 * (cnt - rc + j)), mem (2 * (cnt - rc + j) + 1)]⟩ : Wr)))
    ∧ (∀ w ∈ sump_la_cb rc (some mem) cnt 8, ∃ x : Int, w.src = some x ∧ 0 ≤ x ∧ x < cnt)
    ∧ (∀ w ∈ sump_la_cb rc (some mem) cnt 16, ∃ x : Int, w.src = some x ∧ 0 ≤ x ∧ x < cnt) := by
  obtain ⟨n, rfl⟩ := Int.eq_ofNat_of_zero_le h0
  obtain ⟨k, hk⟩ := Int.eq_ofNat_of_zero_le (show 0 ≤ cnt - (n : Int) - 1 by omega)
  have hcnt : cnt = ((n + k + 1 : Nat) : Int) := by push_cast; omega
  subst hcnt
  have hlt : n + k + 1 < 2 ^ 31 := by exact_mod_cast h2
  have e8 := sump_la_cb8_over mem k n hlt
  have e16 := sump_la_cb16_over mem k n hlt
  have hc : ((n + k + 1 : Nat) : Int) - (n : Int) = (k : Int) + 1 := by push_cast; omega
  rw [hc, Int.toNat_ofNat]
  refine ⟨e8, e16, ?_, ?_⟩
  · intro w hw
    rw [e8] at hw
    obtain ⟨j, hj, rfl⟩ := List.mem_map.1 hw
    have hjn : j < n := by simpa using hj
    exact ⟨(k : Int) + 1 + j, rfl, by omega, by push_cast; omega⟩
  · intro w hw
    rw [e16] at hw
    obtain ⟨j, hj, rfl⟩ := List.mem_map.1 hw
    have hjn : j < n := by simpa using hj
    exact ⟨(k : Int) + 1 + j, rfl, by omega, by push_cast; omega⟩

/-- Witness of C19: width 8, a request of 2 samples answered with the 4 samples
`[1, 2, 3, 4]` sends `4 3`. -/
theorem sump_la_cb_width_8_16_over_delivery_witness :
    wire (sump_la_cb 2 (some (bufMem [1, 2, 3, 4] 0xEE)) 4 8) = [4, 3] := by
  have h := (sump_la_cb_width_8_16_over_delivery (bufMem [1, 2, 3, 4] 0xEE) 2 4
    (by decide) (by decide) (by decide)).1
  rw [h]
  decide

/-! ## Trigger state invariant -/

theorem list_four_shape (l : List Nat) (h : ¬ l.length < 4) :
    ∃ (b0 b1 b2 b3 : Nat) (rest : List Nat), l = b0 :: b1 :: b2 :: b3 :: rest := by
  rcases l with _ | ⟨a, _ | ⟨b, _ | ⟨c, _ | ⟨d, r⟩⟩⟩⟩
  · exact absurd (by simp) h
  · exact absurd (by simp) h
  · exact absurd (by simp) h
  · exact absurd (by simp) h
  · exact ⟨a, b, c, d, r, rfl⟩

/-- A command with payload that returns has found four bytes to read. -/
theorem step_some_shape
    (hal : logic_analyzer_hw_param_t → logic_analyzer_hw_param_t)
    (cmd : SumpCmd) (s s1 : Session) (hp : has_payload cmd = true)
    (h : sump_cmd_parser_step hal cmd s = some s1) :
    ∃ (b0 b1 b2 b3 : Nat) (rest : List Nat), s.rx = b0 :: b1 :: b2 :: b3 :: rest := by
  apply list_four_shape
  intro hlen
  rw [step_with_payload_blocks hal cmd s hp hlen] at h
  exact absurd h (by simp)

/-- Every command but `SUMP_TRIGGER_MASK_CH_A` leaves the trigger mask and the
trigger pin as they are. -/
theorem step_trigger_frame
    (hal : logic_analyzer_hw_param_t → logic_analyzer_hw_param_t)
    (cmd : SumpCmd) (s s1 : Session) (hcmd : cmd ≠ .SUMP_TRIGGER_MASK_CH_A)
    (h : sump_cmd_parser_step hal cmd s = some s1) :
    s1.trigger = s.trigger ∧ s1.first_trigger_pin = s.first_trigger_pin := by
  cases cmd
  case SUMP_TRIGGER_MASK_CH_A => exact absurd rfl hcmd
  case SUMP_RESET =>
    have e : s = s1 := Option.some.inj h
    rw [← e]; exact ⟨rfl, rfl⟩
  case SUMP_SELF_TEST =>
    have e : s = s1 := Option.some.inj h
    rw [← e]; exact ⟨rfl, rfl⟩
  case OTHER =>
    have e : s = s1 := Option.some.inj h
    rw [← e]; exact ⟨rfl, rfl⟩
  case SUMP_QUERY =>
    have e := Option.some.inj h
    rw [← e]; exact ⟨rfl, rfl⟩
  case SUMP_ARM =>
    have e := Option.some.inj h
    rw [← e]
    by_cases hr : s.readCount ≤ 0 <;> simp [sump_capture_and_send_samples, hr]
  case SUMP_GET_METADATA =>
    have e := Option.some.inj h
    rw [← e, sump_get_metadata_frame]
    exact ⟨rfl, rfl⟩
  all_goals
    obtain ⟨b0, b1, b2, b3, rest, hrx⟩ := step_some_shape hal _ s s1 (by rfl) h
    have hg := sump_getCmd4_some s b0 b1 b2 b3 rest hrx
    simp only [sump_cmd_parser_step, hg, Option.map_some', Option.some.injEq] at h
    rw [← h]
    exact ⟨rfl, rfl⟩

/-- Every command keeps the trigger invariant. -/
theorem step_trigger_inv
    (hal : logic_analyzer_hw_param_t → logic_analyzer_hw_param_t)
    (cmd : SumpCmd) (s s1 : Session) (hinv : trigger_inv s)
    (h : sump_cmd_parser_step hal cmd s = some s1) : trigger_inv s1 := by
  by_cases hcmd : cmd = .SUMP_TRIGGER_MASK_CH_A
  · subst hcmd
    obtain ⟨b0, b1, b2, b3, rest, hrx⟩ :=
      step_some_shape hal .SUMP_TRIGGER_MASK_CH_A s s1 rfl h
    rw [trigger_mask_step hal s b0 b1 b2 b3 rest hrx] at h
    have e := Option.some.inj h
    rw [← e]
    by_cases hm : b0 % 256 + 256 * (b1 % 256) = 0
    · simp only [trigger_inv, hm]
      decide
    · have hlt : b0 % 256 + 256 * (b1 % 256) < 65536 := by omega
      obtain ⟨p, hp1, hp2, _, _⟩ := trigger_pin_loop_mask _ hm hlt (-1)
      have hne : ((b0 % 256 + 256 * (b1 % 256) : Nat) : Int) ≠ 0 := by exact_mod_cast hm
      simp only [trigger_inv, if_pos hne, hp2]
      exact ⟨by omega, by omega, fun _ => hne, fun _ => by omega⟩
  · obtain ⟨ht, hpin⟩ := step_trigger_frame hal cmd s s1 hcmd h
    simp only [trigger_inv, ht, hpin]
    exact hinv

/-- Every run of commands keeps the trigger invariant. -/
theorem run_trigger_inv
    (hal : logic_analyzer_hw_param_t → logic_analyzer_hw_param_t)
    (cmds : List SumpCmd) (s s1 : Session) (hinv : trigger_inv s)
    (h : sump_run hal cmds s = some s1) : trigger_inv s1 := by
  induction cmds generalizing s with
  | nil =>
    have e : s = s1 := Option.some.inj h
    rw [← e]; exact hinv
  | cons c cs ih =>
    simp only [sump_run] at h
    cases hstep : sump_cmd_parser_step hal c s with
    | none => rw [hstep] at h; exact absurd h (by simp)
    | some s2 =>
      rw [hstep, Option.some_bind] at h
      exact ih s2 (step_trigger_inv hal c s s2 hinv hstep) h

/-- C20: in every state reached from the initial state (trigger mask 0, trigger
pin -1, edge value 0) by any sequence of commands with any payloads, the
trigger pin index lies in `-1..15` and is non-negative exactly when the stored
trigger mask is not zero; so the shift amount of `SUMP_TRIGGER_VALUES_CH_A`,
used only when the mask is not zero, lies in `0..15`, and the index into the
pin table at `SUMP_ARM`, used only when the pin index is non-negative, lies in
`0..15`. -/
theorem trigger_pin_in_range_when_reachable
    (hal : logic_analyzer_hw_param_t → logic_analyzer_hw_param_t)
    (cfg : logic_analyzer_config_t) (hw : logic_analyzer_hw_param_t) (rx : List Nat)
    (cmds : List SumpCmd) (s : Session)
    (hrun : sump_run hal cmds (Session.init cfg hw rx) = some s) :
    -1 ≤ s.first_trigger_pin ∧ s.first_trigger_pin ≤ 15
    ∧ (0 ≤ s.first_trigger_pin ↔ s.trigger ≠ 0)
    ∧ (s.trigger ≠ 0 → 0 ≤ s.first_trigger_pin ∧ s.first_trigger_pin ≤ 15)
    ∧ (s.first_trigger_pin ≥ 0 → s.first_trigger_pin.toNat < 16) := by
  have hinit : trigger_inv (Session.init cfg hw rx) := by
    simp only [trigger_inv, Session.init]
    decide
  obtain ⟨h1, h2, h3⟩ := run_trigger_inv hal cmds _ s hinit hrun
  exact ⟨h1, h2, h3, fun ht => ⟨h3.2 ht, h2⟩, fun _ => by omega⟩

/-- Witness of C20: after mask `00 80` (bit 15) and values `00 80` the pin is 15
and the edge rising; after a further mask `00 00` and an arm the run ends in a
state, and the invariant holds there. -/
theorem trigger_pin_in_range_when_reachable_witness :
    (sump_run id [.SUMP_TRIGGER_MASK_CH_A, .SUMP_TRIGGER_VALUES_CH_A]
        (Session.init demo_cfg demo_hw [0x00, 0x80, 0, 0, 0x00, 0x80, 0, 0])).map
      (fun s => (s.trigger, s.first_trigger_pin, s.first_trigger_val))
      = some (0x8000, 15, 1)
    ∧ ∃ s : Session,
      sump_run id [.SUMP_TRIGGER_MASK_CH_A, .SUMP_TRIGGER_VALUES_CH_A,
          .SUMP_TRIGGER_MASK_CH_A, .SUMP_ARM]
        (Session.init demo_cfg demo_hw
          [0x00, 0x80, 0, 0, 0x00, 0x80, 0, 0, 0x00, 0x00, 0, 0]) = some s
      ∧ -1 ≤ s.first_trigger_pin ∧ s.first_trigger_pin ≤ 15
      ∧ (0 ≤ s.first_trigger_pin ↔ s.trigger ≠ 0)
      ∧ (s.trigger ≠ 0 → 0 ≤ s.first_trigger_pin ∧ s.first_trigger_pin ≤ 15)
      ∧ (s.first_trigger_pin ≥ 0 → s.first_trigger_pin.toNat < 16) := by
  refine ⟨by decide, ?_⟩
  obtain ⟨s, hs⟩ := Option.isSome_iff_exists.1
    (show (sump_run id [.SUMP_TRIGGER_MASK_CH_A, .SUMP_TRIGGER_VALUES_CH_A,
          .SUMP_TRIGGER_MASK_CH_A, .SUMP_ARM]
        (Session.init demo_cfg demo_hw
          [0x00, 0x80, 0, 0, 0x00, 0x80, 0, 0, 0x00, 0x00, 0, 0])).isSome = true by decide)
  exact ⟨s, hs,
    trigger_pin_in_range_when_reachable id demo_cfg demo_hw
      [0x00, 0x80, 0, 0, 0x00, 0x80, 0, 0, 0x00, 0x00, 0, 0]
      [.SUMP_TRIGGER_MASK_CH_A, .SUMP_TRIGGER_VALUES_CH_A,
        .SUMP_TRIGGER_MASK_CH_A, .SUMP_ARM] s hs⟩

end Sump
